import Mathlib

/-!
# Whatsups: the export pipeline of `index.js`

A shallow embedding of the chat exporter (`sanitize`, `saveMediaIfImageOrVideo`,
`exportChat`, `exportAll`, `waitForChatSync`, `shutdown`) and the properties of
its specification.

Conventions of the embedding.

* A JavaScript string is the list of its UTF-16 code units (`JsString`); `length`,
  `slice`, `startsWith`, `endsWith` and the non-unicode regular expression of
  `sanitize` all work on code units.
* `undefined` and `null` are `none`; `a || b` on strings is `orStr`.
* The messaging client is the environment (`World`): what `fetchMessages`,
  `downloadMedia`, `getChats`, the polled chat counter and the clock return is
  given from outside, and a call may reject.
* Asynchronous functions return a `Status` (`done`, `threw`, or `pending` when the
  fuel of a loop is used up) together with the state reached so far.
* The archive is a map from `Path` to `File`.  The arguments of `path.join` are kept
  as they are (no normalisation).  Writes of `chat.json`, `index.json` and of the
  log stream succeed; persisting a media file may fail.
-/

namespace Whatsups

/-! ## JavaScript strings -/

/-- A JavaScript string: its UTF-16 code units. -/
abbrev JsString := List Nat

/-- An ASCII literal of the source as code units. -/
def lit (s : String) : JsString := s.toList.map Char.toNat

/-- Truthiness of a possibly undefined string: defined and non-empty. -/
def truthy : Option JsString → Bool
  | some (_ :: _) => true
  | _ => false

/-- The expression `a || b` for possibly undefined strings. -/
def orStr (a b : Option JsString) : Option JsString :=
  if truthy a then a else b

/-! ## sanitize (index.js 9-11) -/

/-- The character class `[<>:"/\\|?*\x00-\x1F]`. -/
def isReserved (c : Nat) : Bool :=
  c == 0x3C || c == 0x3E || c == 0x3A || c == 0x22 || c == 0x2F || c == 0x5C ||
  c == 0x7C || c == 0x3F || c == 0x2A || c ≤ 0x1F

/-- The function `sanitize`: `s.replace(/[<>:"/\\|?*\x00-\x1F]/g, '_').slice(0, 100)`. -/
def sanitize (s : JsString) : JsString :=
  (s.map (fun c => if isReserved c then 0x5F else c)).take 100

/-- The expression `a || b` where `b` is a string literal. -/
def orLit (a : Option JsString) (b : JsString) : JsString :=
  match a with
  | some (c :: cs) => c :: cs
  | _ => b

/-! ## Data model -/

/-- An identifier object of the client: the fields `id._serialized` and `id.id`. -/
structure JsId where
  _serialized : Option JsString
  id : Option JsString
  deriving DecidableEq

/-- A chat handle as `getChats` returns it. -/
structure Chat where
  id : Option JsId
  name : Option JsString
  formattedTitle : Option JsString
  isGroup : Bool
  deriving DecidableEq

/-- The outcome of awaiting a call into the client. -/
inductive Async (α : Type) where
  | resolves (value : α)
  | rejects
  deriving DecidableEq

/-- An attachment as `downloadMedia` returns it. -/
structure Media where
  mimetype : Option JsString
  data : JsString
  deriving DecidableEq

/-- A message handle of a fetched page; `downloadMedia` is what awaiting
`message.downloadMedia()` gives. -/
structure Message where
  id : Option JsId
  type : JsString
  timestamp : Nat
  from_ : JsString
  to_ : JsString
  author : Option JsString
  body : Option JsString
  hasMedia : Bool
  downloadMedia : Async (Option Media)
  deriving DecidableEq

/-- The options object passed to `chat.fetchMessages`. -/
structure FetchOpts where
  limit : Nat
  before : Option JsString
  deriving DecidableEq

/-- A file of the archive below `outRoot`, by the arguments given to `path.join`. -/
inductive Path where
  | index
  | chatJson (chatId : JsString)
  | messages (chatId : JsString)
  | media (chatId : JsString) (filename : JsString)
  deriving DecidableEq

/-- The object written to `chat.json` and, per chat, to `index.json`. -/
structure Meta where
  id : Option JsString
  name : JsString
  isGroup : Bool
  deriving DecidableEq

/-- One record of `messages.jsonl` (the object given to `JSON.stringify`). -/
structure Row where
  id : JsString
  type : JsString
  timestamp : Nat
  from_ : JsString
  to_ : JsString
  author : Option JsString
  body : JsString
  hasMedia : Bool
  mediaPath : Option Path
  deriving DecidableEq

/-- The content of a file; a log is the lines written to a stream and whether
`stream.end()` was called, a blob the attachment whose base64 text is `data`. -/
inductive File where
  | json (meta : Meta)
  | index (metas : List Meta)
  | log (lines : List Row) (ended : Bool)
  | blob (data : JsString)
  deriving DecidableEq

/-- How an asynchronous function stands: returned, threw, or still running when the
fuel of its loop is used up. -/
inductive Status where
  | done
  | threw
  | pending
  deriving DecidableEq

/-- The archive and the calls made so far: `fetches` lists every `fetchMessages`
call, `dispatched` every chat `exportAll` handed to `exportChat`. -/
structure State where
  fs : Path → Option File
  fetches : List (Chat × FetchOpts)
  dispatched : List Chat

/-- The empty archive, before any call. -/
def State.init : State := ⟨fun _ => none, [], []⟩

/-- Replace the content of a file (`writeJson`, `writeFile`, `createWriteStream` with
flag `w`). -/
def State.write (st : State) (p : Path) (f : File) : State :=
  { st with fs := fun q => if q = p then some f else st.fs q }

/-- The lines of a log file; no lines when the path holds no log. -/
def linesOf : Option File → List Row
  | some (File.log ls _) => ls
  | _ => []

/-- Whether the path holds a log whose stream was ended. -/
def isEnded : Option File → Bool
  | some (File.log _ e) => e
  | _ => false

/-- The call `stream.write(line)` on the stream opened at `p`. -/
def State.appendLine (st : State) (p : Path) (r : Row) : State :=
  st.write p (File.log (linesOf (st.fs p) ++ [r]) (isEnded (st.fs p)))

/-- The call `stream.end()` on the stream opened at `p`. -/
def State.endStream (st : State) (p : Path) : State :=
  st.write p (File.log (linesOf (st.fs p)) true)

/-- The environment: the clock, the client and the libraries the exporter calls.
`now c k` is the reading of `Date.now()` at the top of iteration `k` of the
pagination loop of chat `c`; `fetchMessages c k opts` is what the call number `k` of
that chat gives. For `waitForChatSync`, `syncStart` is the reading `start`,
`chatsCount k` the counter read by poll number `k`, `evaluateMs k` the time that poll
takes and `timerLag k` how late the timer of the sleep after it fires. -/
structure World where
  now : Chat → Nat → Nat
  fetchMessages : Chat → Nat → FetchOpts → Async (Option (List Message))
  extension : JsString → Option JsString
  ensureDirOk : JsString → Bool
  writeFileOk : Path → Bool
  getChats : Async (List Chat)
  syncStart : Nat
  evaluateMs : Nat → Nat
  timerLag : Nat → Nat
  chatsCount : Nat → Async Nat

/-! ## saveMediaIfImageOrVideo (index.js 28-40) -/

/-- The function `saveMediaIfImageOrVideo(message, chatId)`: the awaited result and
the archive after it. -/
def saveMediaIfImageOrVideo (w : World) (message : Message) (chatId : JsString)
    (st : State) : Async (Option Path) × State :=
  match message.downloadMedia with
  | .rejects => (.rejects, st)
  | .resolves none => (.resolves none, st)
  | .resolves (some media) =>
    let mt := orLit media.mimetype []
    if !((lit "image/").isPrefixOf mt || (lit "video/").isPrefixOf mt) then
      (.resolves none, st)
    else
      let ext := orLit (w.extension mt) (lit "bin")
      if !w.ensureDirOk chatId then (.rejects, st)
      else
        match message.id.bind (fun i => i._serialized) with
        | none => (.rejects, st)
        | some s =>
          let filename := sanitize s ++ lit "." ++ ext
          let filePath := Path.media chatId filename
          if !w.writeFileOk filePath then (.rejects, st)
          else (.resolves (some filePath), st.write filePath (File.blob media.data))

/-! ## exportChat (index.js 42-84) -/

/-- The id computed for a message: `m.id && (m.id._serialized || m.id.id) || null`. -/
def messageId (m : Message) : Option JsString :=
  match m.id with
  | none => none
  | some i => if truthy (orStr i._serialized i.id) then orStr i._serialized i.id else none

/-- The lines 64-67 of `exportChat`: `mediaPath` starts as `null` and, when the
message declares media, takes the result of `saveMediaIfImageOrVideo`; an error of
that call is caught and leaves it `null`. -/
def attachMedia (w : World) (m : Message) (chatId : JsString) (st : State) :
    Option Path × State :=
  if m.hasMedia then
    match saveMediaIfImageOrVideo w m chatId st with
    | (.resolves p, st1) => (p, st1)
    | (.rejects, st1) => (none, st1)
  else (none, st)

/-- The object `row` of `exportChat` (index.js 68-78). -/
def rowOf (m : Message) (mid : JsString) (mediaPath : Option Path) : Row :=
  { id := mid
    type := m.type
    timestamp := m.timestamp
    from_ := m.from_
    to_ := m.to_
    author := if truthy m.author then m.author else none
    body := orLit m.body []
    hasMedia := mediaPath.isSome
    mediaPath := mediaPath }

/-- The body of the loop over one page (index.js 61-79) for one message: skip it
when it has no id or a seen one, else mark it seen, save its media and write its row. -/
def writeMessage (w : World) (chatId : JsString) (acc : List JsString × State)
    (m : Message) : List JsString × State :=
  match messageId m with
  | none => acc
  | some mid =>
    if mid ∈ acc.1 then acc
    else
      let saved := attachMedia w m chatId acc.2
      (mid :: acc.1,
        saved.2.appendLine (Path.messages chatId) (rowOf m mid saved.1))

/-- The test `deadline && Date.now() > deadline`. -/
def deadlinePassed (deadline : Option Nat) (now : Nat) : Bool :=
  match deadline with
  | none => false
  | some d => d != 0 && decide (now > d)

/-- The pagination loop `while (true)` of `exportChat` from iteration `k`, with the
cursor `before` and the set `seen`. `done` is leaving the loop by `break`. -/
def paginate (w : World) (chat : Chat) (chatId : JsString) (deadline : Option Nat) :
    Nat → Nat → Option JsString → List JsString → State → Status × State
  | 0, _, _, _, st => (.pending, st)
  | fuel + 1, k, before, seen, st =>
    if deadlinePassed deadline (w.now chat k) then (.done, st)
    else
      let opts : FetchOpts :=
        if truthy before then { limit := 500, before := before }
        else { limit := 500, before := none }
      let st1 : State := { st with fetches := st.fetches ++ [(chat, opts)] }
      match w.fetchMessages chat k opts with
      | .rejects => (.threw, st1)
      | .resolves none => (.done, st1)
      | .resolves (some []) => (.done, st1)
      | .resolves (some (m :: ms)) =>
        let acc := (m :: ms).foldl (writeMessage w chatId) (seen, st1)
        match ((m :: ms).getLast (List.cons_ne_nil m ms)).id with
        | none => (.threw, acc.2)
        | some i => paginate w chat chatId deadline fuel (k + 1) i._serialized acc.1 acc.2

/-- The value `chat.id._serialized` as `path.join` needs it; `none` when reading it
or joining the path throws. -/
def chatId (chat : Chat) : Option JsString :=
  chat.id.bind (fun i => i._serialized)

/-- The object `meta` of `exportChat` and the entries of `index.json`. -/
def metaOf (chat : Chat) : Meta :=
  { id := chatId chat
    name := orLit (orStr chat.name chat.formattedTitle) []
    isGroup := chat.isGroup || false }

/-- The function `exportChat(chat, deadline)`. -/
def exportChat (w : World) (chat : Chat) (deadline : Option Nat) (fuel : Nat)
    (st : State) : Status × State :=
  if chat.isGroup then (.done, st)
  else
    match chatId chat with
    | none => (.threw, st)
    | some cid =>
      let st1 := st.write (Path.chatJson cid) (File.json (metaOf chat))
      let st2 := st1.write (Path.messages cid) (File.log [] false)
      match paginate w chat cid deadline fuel 0 none [] st2 with
      | (.done, st3) => (.done, st3.endStream (Path.messages cid))
      | r => r

/-! ## waitForChatSync (index.js 127-151) -/

/-- How the polling loop of `waitForChatSync` ended, after `polls` polls: by
`stableCount >= 3`, by the loop test failing, by `evaluate` rejecting; `pending` when
the fuel is used up. -/
inductive SyncEnd where
  | stable (polls : Nat)
  | timedOut (polls : Nat)
  | rejected (polls : Nat)
  | pending
  deriving DecidableEq

/-- The loop `while (Date.now() - start < maxMs)` from its test number `k`, where
`Date.now()` reads `now`, with the variables `prev` and `stableCount`. After a poll the
loop sleeps: `await new Promise(r => setTimeout(r, 1000))`, so the next test reads the
clock 1000 ms after the poll returned, and later by what the timer is late. The result
is how the loop ended and the clock readings of the tests that were followed by a
poll. The progress line it logs sets no variable of the loop but `lastLogTime`, which
only the logging reads. -/
def pollLoop (w : World) (maxMs : Nat) : Nat → Nat → Nat → Nat → Nat → SyncEnd × List Nat
  | 0, _, _, _, _ => (.pending, [])
  | fuel + 1, k, now, prev, stableCount =>
    if (now : Int) - (w.syncStart : Int) < (maxMs : Int) then
      match w.chatsCount k with
      | .rejects => (.rejected k, [now])
      | .resolves chatsCount =>
        let stableCount1 := if chatsCount = prev then stableCount + 1 else 0
        if stableCount1 ≥ 3 then (.stable (k + 1), [now])
        else
          let rest := pollLoop w maxMs fuel (k + 1)
            (now + w.evaluateMs k + 1000 + w.timerLag k) chatsCount stableCount1
          (rest.1, now :: rest.2)
    else (.timedOut k, [])

/-- The function `waitForChatSync(client, maxMs)`: `start = Date.now()`,
`prev = 0, stableCount = 0`, then the loop, whose first test reads the clock at
`start`. The forced scroll before it swallows its errors and sets no variable. -/
def waitForChatSync (w : World) (maxMs : Nat) (fuel : Nat) : SyncEnd :=
  (pollLoop w maxMs fuel 0 w.syncStart 0 0).1

/-- The clock readings at which `waitForChatSync` polled. -/
def pollTimes (w : World) (maxMs : Nat) (fuel : Nat) : List Nat :=
  (pollLoop w maxMs fuel 0 w.syncStart 0 0).2

/-! ## exportAll (index.js 86-102) -/

/-- The predicate of `chats.filter` in `exportAll`. -/
def isDirectChat (c : Chat) : Bool :=
  let id := orLit (c.id.bind (fun i => i._serialized)) []
  !c.isGroup && id != lit "0@c.us" && !(lit "@g.us").isSuffixOf id &&
    !(lit "@broadcast").isSuffixOf id && !(lit "@newsletter").isSuffixOf id

/-- The list `directChats` of `exportAll`. -/
def directChats (chats : List Chat) : List Chat :=
  chats.filter isDirectChat

/-- The expression `Promise.allSettled(directChats.map(chat => exportChat(chat, deadline)))`:
every chat is handed to `exportChat`, a rejection is kept out of the result, and the
whole is pending as long as one export is. Each export writes below its own chat id,
so the exports are run one after the other here. -/
def settleAll (w : World) (deadline : Option Nat) (fuel : Nat) :
    List Chat → State → Status × State
  | [], st => (.done, st)
  | c :: cs, st =>
    let r := exportChat w c deadline fuel { st with dispatched := st.dispatched ++ [c] }
    let rest := settleAll w deadline fuel cs r.2
    (if r.1 = .pending then .pending else rest.1, rest.2)

/-- The lines 90-101 of `exportAll`, once `getChats` has resolved with `chats`. -/
def exportAllChats (w : World) (deadline : Option Nat) (fuel : Nat) (chats : List Chat)
    (st : State) : Status × State :=
  if (directChats chats).any (fun c => c.id.isNone) then (.threw, st)
  else
    settleAll w deadline fuel (directChats chats)
      (st.write Path.index (File.index ((directChats chats).map metaOf)))

/-- The function `exportAll(client, deadline)`: the wait for the chat list, then
`getChats`, then the lines 90-101. Ensuring `outRoot` writes no file of the archive. -/
def exportAll (w : World) (deadline : Option Nat) (fuel : Nat) (st : State) :
    Status × State :=
  match waitForChatSync w 300000 fuel with
  | .pending => (.pending, st)
  | .rejected _ => (.threw, st)
  | _ =>
    match w.getChats with
    | .rejects => (.threw, st)
    | .resolves chats => exportAllChats w deadline fuel chats st

/-! ## shutdown and its triggers (index.js 161-204) -/

/-- The calls of the chain in `shutdown`. -/
inductive Call where
  | logout
  | destroy
  | exit
  deriving DecidableEq

/-- The places that call `shutdown()`. -/
inductive Trigger where
  | exportCompleted
  | extractTimeout
  | windowClosed
  | disconnected
  | authFailure
  deriving DecidableEq

/-- What the event loop runs next: a trigger fires, or one of the chains started by
`shutdown()` runs its next callback. -/
inductive Event where
  | fire (t : Trigger)
  | logoutStarts
  | logoutSettles
  | destroySettles
  deriving DecidableEq

/-- The process: how many chains of `shutdown()` wait to run `client.logout()`, await
it, await `client.destroy()`; the calls made; whether `process.exit(0)` was reached. -/
structure Proc where
  queued : Nat
  loggingOut : Nat
  destroying : Nat
  calls : List Call
  exited : Bool
  deriving DecidableEq

/-- The function `shutdown()`: it starts one more promise chain. -/
def shutdown (p : Proc) : Proc :=
  { p with queued := p.queued + 1 }

/-- One turn of the event loop; nothing runs once the process has exited. -/
def step (p : Proc) (e : Event) : Proc :=
  if p.exited then p
  else
    match e with
    | .fire _ => shutdown p
    | .logoutStarts =>
      if 0 < p.queued then
        { p with queued := p.queued - 1, loggingOut := p.loggingOut + 1,
                 calls := p.calls ++ [Call.logout] }
      else p
    | .logoutSettles =>
      if 0 < p.loggingOut then
        { p with loggingOut := p.loggingOut - 1, destroying := p.destroying + 1,
                 calls := p.calls ++ [Call.destroy] }
      else p
    | .destroySettles =>
      if 0 < p.destroying then
        { p with destroying := p.destroying - 1, calls := p.calls ++ [Call.exit],
                 exited := true }
      else p

/-- The process after a sequence of events, from the start of the program. -/
def run (es : List Event) : Proc :=
  es.foldl step ⟨0, 0, 0, [], false⟩

/-- Whether an event is a trigger. -/
def Event.isFire : Event → Bool
  | .fire _ => true
  | _ => false

/-! ## The words of the specification -/

/-- A list with every repeated occurrence after the first removed, in
first-occurrence order. -/
def keepFirst : List JsString → List JsString
  | [] => []
  | x :: xs => x :: (keepFirst xs).filter (fun y => y ≠ x)

/-- The id a chat is filtered by: `id._serialized`, the empty string when absent. -/
def idString (c : Chat) : JsString :=
  match chatId c with
  | some s => s
  | none => []

/-- Eligibility as the specification words it: not a group, id different from
`0@c.us`, id not ending in `@g.us`, `@broadcast` or `@newsletter`. -/
def Eligible (c : Chat) : Prop :=
  c.isGroup = false ∧ idString c ≠ lit "0@c.us" ∧ ¬ lit "@g.us" <:+ idString c ∧
    ¬ lit "@broadcast" <:+ idString c ∧ ¬ lit "@newsletter" <:+ idString c

/-- A poll is unchanged, in the words of the specification, when its count equals the
count of the poll before it. -/
def UnchangedSpec (counts : Nat → Nat) (i : Nat) : Prop :=
  0 < i ∧ counts i = counts (i - 1)

/-- A poll is unchanged for the code when its count equals `prev`: the count of the
poll before it, and the initial value 0 for the first poll. -/
def Unchanged (counts : Nat → Nat) (i : Nat) : Prop :=
  counts i = if i = 0 then 0 else counts (i - 1)

/-- Poll `n` completes three consecutive unchanged polls. -/
def CompletesThree (unchanged : Nat → Prop) (n : Nat) : Prop :=
  2 ≤ n ∧ unchanged (n - 2) ∧ unchanged (n - 1) ∧ unchanged n

/-- The content type of an attachment starts with `image/` or `video/`. -/
def Qualifies (media : Media) : Prop :=
  ∃ mt, media.mimetype = some mt ∧ (lit "image/" <+: mt ∨ lit "video/" <+: mt)

/-- The file of an attachment: `media/<chatId>/<sanitize(id)>.<ext>`, the extension
being the one of the content type, `bin` when there is none. -/
def mediaFile (w : World) (chatId : JsString) (s : JsString) (media : Media) : Path :=
  Path.media chatId
    (sanitize s ++ lit "." ++ orLit (w.extension (orLit media.mimetype [])) (lit "bin"))

/-- Persisting the attachment of a message succeeds: the media directory of the chat
can be ensured, the message has an `id._serialized` to name the file, and the file can
be written. -/
def Persisted (w : World) (chatId : JsString) (m : Message) (media : Media) : Prop :=
  w.ensureDirOk chatId = true ∧
  ∃ s, m.id.bind (fun i => i._serialized) = some s ∧
    w.writeFileOk (mediaFile w chatId s media) = true

/-! ## Auxiliary functions of the proofs -/

/-- The ids of the rows of a log file. -/
def idsOf (f : Option File) : List JsString :=
  (linesOf f).map Row.id

/-- The ids that a pass over `xs` with the set `seen` lets through. -/
def freshIds : List JsString → List JsString → List JsString
  | _, [] => []
  | seen, x :: xs => if x ∈ seen then freshIds seen xs else x :: freshIds (x :: seen) xs

/-- The set `seen` after a pass over `xs`. -/
def seenAfter : List JsString → List JsString → List JsString
  | seen, [] => seen
  | seen, x :: xs => if x ∈ seen then seenAfter seen xs else seenAfter (x :: seen) xs

/-- A path that no export of the chat `cid` writes. -/
def Foreign (cid : JsString) (p : Path) : Prop :=
  p ≠ Path.chatJson cid ∧ p ≠ Path.messages cid ∧ ∀ f, p ≠ Path.media cid f

instance : DecidablePred Eligible := fun c => by
  unfold Eligible
  infer_instance

/-- The polling loop of `waitForChatSync` came to an end. -/
def SyncEnd.ended : SyncEnd → Bool
  | .stable _ => true
  | .timedOut _ => true
  | _ => false

/-- The value of `prev` at the loop test number `k`: 0 at first, then the count of
the poll before. -/
def prevOf (counts : Nat → Nat) (k : Nat) : Nat :=
  if k = 0 then 0 else counts (k - 1)

/-- The value of `stableCount` at the loop test number `k` when no poll broke the loop. -/
def runLen (counts : Nat → Nat) : Nat → Nat
  | 0 => 0
  | k + 1 => if counts k = prevOf counts k then runLen counts k + 1 else 0

/-- The reading of `Date.now()` at the loop test number `k` of `waitForChatSync`:
`start` at first, then 1000 ms of sleep after the poll before has returned. -/
def pollTime (w : World) : Nat → Nat
  | 0 => w.syncStart
  | k + 1 => pollTime w k + w.evaluateMs k + 1000 + w.timerLag k

/-- The loop test `Date.now() - start < maxMs` number `k` holds: `maxMs` has not
elapsed. -/
def InTime (w : World) (maxMs : Nat) (k : Nat) : Prop :=
  (pollTime w k : Int) - (w.syncStart : Int) < (maxMs : Int)

/-! ## Sample inputs -/

/-- A direct chat `1@c.us`. -/
def sampleChat : Chat :=
  { id := some ⟨some (lit "1@c.us"), none⟩, name := some (lit "Ana"),
    formattedTitle := none, isGroup := false }

/-- A text message whose id is the decimal digit `n`. -/
def sampleMessage (n : Nat) : Message :=
  { id := some ⟨some [48 + n], none⟩, type := lit "chat", timestamp := 0, from_ := lit "1@c.us",
    to_ := lit "2@c.us", author := none, body := some (lit "hi"), hasMedia := false,
    downloadMedia := .resolves none }

/-- The overlapping pages `[5,4,3]` and `[3,2,1]`. -/
def samplePages : List (List Message) :=
  [[sampleMessage 5, sampleMessage 4, sampleMessage 3],
   [sampleMessage 3, sampleMessage 2, sampleMessage 1]]

/-- A world whose chats return `samplePages` and then an empty page, with a clock
that stands at 1000 and a chat list that is stable from the first poll, polled with
no delay but the sleep. -/
def sampleWorld : World :=
  { now := fun _ _ => 1000
    fetchMessages := fun _ k _ => .resolves (some (samplePages.getD k []))
    extension := fun mt => if mt = lit "image/png" then some (lit "png") else none
    ensureDirOk := fun _ => true
    writeFileOk := fun _ => true
    getChats := .resolves [sampleChat]
    syncStart := 0
    evaluateMs := fun _ => 0
    timerLag := fun _ => 0
    chatsCount := fun _ => .resolves 0 }

/-- A world like `sampleWorld` whose first `fetchMessages` call rejects. -/
def rejectingWorld : World :=
  { sampleWorld with fetchMessages := fun _ _ _ => .rejects }

/-- A message without an `id` object. -/
def messageWithoutId : Message :=
  { sampleMessage 0 with id := none }

/-- A world like `sampleWorld` whose pages are the one page `[7, (no id)]`. -/
def lastWithoutIdWorld : World :=
  { sampleWorld with
    fetchMessages := fun _ k _ =>
      .resolves (some (([[sampleMessage 7, messageWithoutId]] : List (List Message)).getD k [])) }

/-- A message whose id object has `id` (the string `A`) and no `_serialized`. -/
def messageWithPlainId : Message :=
  { sampleMessage 0 with id := some ⟨none, some (lit "A")⟩ }

/-- A world like `sampleWorld` whose pages are the one page `[messageWithPlainId]`. -/
def plainIdWorld : World :=
  { sampleWorld with
    fetchMessages := fun _ k _ =>
      .resolves (some (([[messageWithPlainId]] : List (List Message)).getD k [])) }

/-- A message with the id 7 that declares media and downloads as `mimetype`. -/
def mediaMessage (mimetype : JsString) : Message :=
  { sampleMessage 7 with
    hasMedia := true
    downloadMedia := .resolves (some { mimetype := some mimetype, data := lit "AAAA" }) }

/-- A chat with the id `s`, no name, and the flag `isGroup`. -/
def chatWithId (s : String) (isGroup : Bool) : Chat :=
  { id := some ⟨some (lit s), none⟩, name := none, formattedTitle := none, isGroup := isGroup }

/-- The chats `1@c.us`, `1@g.us` (a group), `0@c.us` and `x@broadcast`. -/
def fourChats : List Chat :=
  [chatWithId "1@c.us" false, chatWithId "1@g.us" true, chatWithId "0@c.us" false,
   chatWithId "x@broadcast" false]

/-- A world like `sampleWorld` whose `getChats` returns `fourChats`. -/
def fourChatsWorld : World :=
  { sampleWorld with getChats := .resolves fourChats }

/-- A world with the chats `1@c.us` and `2@c.us`: every `fetchMessages` call of
`1@c.us` rejects, `2@c.us` returns `samplePages`. -/
def oneFailingWorld : World :=
  { sampleWorld with
    getChats := .resolves [chatWithId "1@c.us" false, chatWithId "2@c.us" false]
    fetchMessages := fun c k _ =>
      if c = chatWithId "1@c.us" false then .rejects
      else .resolves (some (samplePages.getD k [])) }

/-- A world like `sampleWorld` whose chat list grows at every poll (1, 2, 3, ...),
each poll taking 20 ms. -/
def growingWorld : World :=
  { sampleWorld with
    chatsCount := fun k => .resolves (k + 1)
    evaluateMs := fun _ => 20 }

/-! ## Theorems -/

/-- C3: `sanitize` is a total function on strings; its result has at most 100 code
units and contains no reserved character (`< > : " / \ | ? *`) and no control
character U+0000..U+001F.  Being a function, equal inputs give equal outputs. -/
theorem sanitize_safe (s : JsString) :
    (sanitize s).length ≤ 100 ∧
    (∀ c ∈ sanitize s, c ∉ lit "<>:\"/\\|?*" ∧ ¬ c ≤ 0x1F) ∧
    (∀ t : JsString, s = t → sanitize s = sanitize t) := by
  refine ⟨?_, ?_, ?_⟩
  · simp [sanitize, Nat.min_le_left]
  · intro c hc
    have hmem := List.mem_of_mem_take hc
    obtain ⟨a, -, rfl⟩ := List.mem_map.mp hmem
    by_cases h : isReserved a = true
    · simp only [h, if_true]
      decide
    · simp only [h]
      simp only [isReserved, Bool.or_eq_true, beq_iff_eq, decide_eq_true_eq, not_or] at h
      have hl : lit "<>:\"/\\|?*" = [0x3C, 0x3E, 0x3A, 0x22, 0x2F, 0x5C, 0x7C, 0x3F, 0x2A] := by
        decide
      rw [hl]
      simp only [List.mem_cons, List.mem_singleton, not_or]
      simp
      omega
  · intro t h
    rw [h]

/-! ### The archive -/

@[simp] theorem write_fs_same (st : State) (p : Path) (f : File) :
    (st.write p f).fs p = some f := by
  simp [State.write]

theorem write_fs_other (st : State) (p q : Path) (f : File) (h : q ≠ p) :
    (st.write p f).fs q = st.fs q := by
  simp [State.write, h]

@[simp] theorem write_fetches (st : State) (p : Path) (f : File) :
    (st.write p f).fetches = st.fetches := rfl

@[simp] theorem write_dispatched (st : State) (p : Path) (f : File) :
    (st.write p f).dispatched = st.dispatched := rfl

/-- Saving media leaves every path that is no media file of the chat as it was. -/
theorem saveMedia_fs_other (w : World) (m : Message) (cid : JsString) (st : State)
    (p : Path) (hp : ∀ f, p ≠ Path.media cid f) :
    (saveMediaIfImageOrVideo w m cid st).2.fs p = st.fs p := by
  unfold saveMediaIfImageOrVideo
  split
  · rfl
  · rfl
  · dsimp only
    split
    · rfl
    · split
      · rfl
      · split
        · rfl
        · split
          · rfl
          · exact write_fs_other _ _ _ _ (hp _)

theorem saveMedia_fetches (w : World) (m : Message) (cid : JsString) (st : State) :
    (saveMediaIfImageOrVideo w m cid st).2.fetches = st.fetches ∧
    (saveMediaIfImageOrVideo w m cid st).2.dispatched = st.dispatched := by
  unfold saveMediaIfImageOrVideo
  split
  · exact ⟨rfl, rfl⟩
  · exact ⟨rfl, rfl⟩
  · dsimp only
    split
    · exact ⟨rfl, rfl⟩
    · split
      · exact ⟨rfl, rfl⟩
      · split
        · exact ⟨rfl, rfl⟩
        · split
          · exact ⟨rfl, rfl⟩
          · exact ⟨rfl, rfl⟩

theorem attachMedia_fs_other (w : World) (m : Message) (cid : JsString) (st : State)
    (p : Path) (hp : ∀ f, p ≠ Path.media cid f) :
    (attachMedia w m cid st).2.fs p = st.fs p := by
  have h := saveMedia_fs_other w m cid st p hp
  unfold attachMedia
  split
  · split
    · rename_i heq
      rw [heq] at h
      exact h
    · rename_i heq
      rw [heq] at h
      exact h
  · rfl

theorem attachMedia_fetches (w : World) (m : Message) (cid : JsString) (st : State) :
    (attachMedia w m cid st).2.fetches = st.fetches ∧
    (attachMedia w m cid st).2.dispatched = st.dispatched := by
  have h := saveMedia_fetches w m cid st
  unfold attachMedia
  split
  · split
    · rename_i heq
      rw [heq] at h
      exact h
    · rename_i heq
      rw [heq] at h
      exact h
  · exact ⟨rfl, rfl⟩

theorem messages_ne_media (cid c : JsString) (f : JsString) :
    Path.messages cid ≠ Path.media c f := by
  intro h
  cases h

/-! ### One message -/

/-- The ids in the log and the set `seen` after the loop body ran for one message. -/
theorem writeMessage_ids (w : World) (cid : JsString) (seen : List JsString) (st : State)
    (m : Message) :
    (writeMessage w cid (seen, st) m).1 = seenAfter seen (messageId m).toList ∧
    idsOf ((writeMessage w cid (seen, st) m).2.fs (Path.messages cid)) =
      idsOf (st.fs (Path.messages cid)) ++ freshIds seen (messageId m).toList ∧
    isEnded ((writeMessage w cid (seen, st) m).2.fs (Path.messages cid)) =
      isEnded (st.fs (Path.messages cid)) := by
  unfold writeMessage
  cases hm : messageId m with
  | none => simp [seenAfter, freshIds]
  | some mid =>
    by_cases hs : mid ∈ seen
    · simp [seenAfter, freshIds, hs]
    · have hfs := attachMedia_fs_other w m cid st (Path.messages cid)
        (fun f => messages_ne_media cid cid f)
      simp [seenAfter, freshIds, hs, State.appendLine, idsOf, linesOf, isEnded, hfs, rowOf]

/-- The ids in the log and the set `seen` after the loop over one page. -/
theorem foldl_writeMessage_ids (w : World) (cid : JsString) (ms : List Message) :
    ∀ (seen : List JsString) (st : State),
    (ms.foldl (writeMessage w cid) (seen, st)).1 = seenAfter seen (ms.filterMap messageId) ∧
    idsOf ((ms.foldl (writeMessage w cid) (seen, st)).2.fs (Path.messages cid)) =
      idsOf (st.fs (Path.messages cid)) ++ freshIds seen (ms.filterMap messageId) ∧
    isEnded ((ms.foldl (writeMessage w cid) (seen, st)).2.fs (Path.messages cid)) =
      isEnded (st.fs (Path.messages cid)) := by
  induction ms with
  | nil => intro seen st; simp [seenAfter, freshIds]
  | cons m ms ih =>
    intro seen st
    obtain ⟨h1, h2, h3⟩ := writeMessage_ids w cid seen st m
    have ih2 := ih (writeMessage w cid (seen, st) m).1 (writeMessage w cid (seen, st) m).2
    simp only [List.foldl_cons, Prod.mk.eta] at ih2 ⊢
    obtain ⟨i1, i2, i3⟩ := ih2
    rw [i1, i2, i3, h1, h2, h3]
    cases hm : messageId m with
    | none => simp [List.filterMap_cons, hm, seenAfter, freshIds]
    | some mid =>
      by_cases hs : mid ∈ seen
      · simp [List.filterMap_cons, hm, seenAfter, freshIds, hs]
      · simp [List.filterMap_cons, hm, seenAfter, freshIds, hs]

/-! ### Removing repeated ids -/

theorem mem_keepFirst (xs : List JsString) (a : JsString) : a ∈ keepFirst xs ↔ a ∈ xs := by
  induction xs with
  | nil => simp [keepFirst]
  | cons x xs ih =>
    simp only [keepFirst, List.mem_cons, List.mem_filter, ih, decide_eq_true_eq]
    by_cases h : a = x
    · simp [h]
    · simp [h]

theorem keepFirst_nodup (xs : List JsString) : (keepFirst xs).Nodup := by
  induction xs with
  | nil => simp [keepFirst]
  | cons x xs ih =>
    simp only [keepFirst, List.nodup_cons, List.mem_filter, decide_eq_true_eq]
    exact ⟨fun h => h.2 rfl, ih.filter _⟩

/-- The pass with a set of seen ids lets through the first occurrences that are not
in the set. -/
theorem freshIds_eq_filter (xs : List JsString) :
    ∀ seen : List JsString, freshIds seen xs = (keepFirst xs).filter (fun y => y ∉ seen) := by
  induction xs with
  | nil => intro seen; simp [freshIds, keepFirst]
  | cons x xs ih =>
    intro seen
    by_cases hx : x ∈ seen
    · simp only [freshIds, hx, if_true, keepFirst, ih, List.filter_cons, List.filter_filter]
      simp only [not_true_eq_false, decide_False, Bool.false_eq_true, if_false]
      apply List.filter_congr
      intro y _
      by_cases hy : y ∈ seen
      · simp [hy]
      · have : y ≠ x := fun e => hy (e ▸ hx)
        simp [hy, this]
    · simp only [freshIds, hx, if_false, keepFirst, ih, List.filter_cons, List.filter_filter]
      simp only [not_false_eq_true, decide_True, if_true, List.cons.injEq, true_and]
      apply List.filter_congr
      intro y _
      by_cases hy : y = x
      · simp [hy]
      · simp [hy]

theorem freshIds_nil (xs : List JsString) : freshIds [] xs = keepFirst xs := by
  rw [freshIds_eq_filter]
  simp

theorem freshIds_append (xs ys : List JsString) :
    ∀ seen : List JsString,
    freshIds seen (xs ++ ys) = freshIds seen xs ++ freshIds (seenAfter seen xs) ys := by
  induction xs with
  | nil => intro seen; simp [freshIds, seenAfter]
  | cons x xs ih =>
    intro seen
    by_cases hx : x ∈ seen
    · simp [freshIds, seenAfter, hx, ih]
    · simp [freshIds, seenAfter, hx, ih]

/-! ### The pagination loop on a fixed sequence of pages -/

/-- The pagination loop when the calls from number `k` on return the non-empty pages
`rest` and then an empty page, every message has an id object and the deadline is not
reached: it leaves by `break` and has appended the fresh ids of the pages in order. -/
theorem paginate_script (w : World) (chat : Chat) (cid : JsString) (deadline : Option Nat)
    (hd : ∀ k, deadlinePassed deadline (w.now chat k) = false) :
    ∀ (rest : List (List Message)) (fuel k : Nat) (before : Option JsString)
      (seen : List JsString) (st : State),
    (∀ j p opts, rest[j]? = some p → w.fetchMessages chat (k + j) opts = .resolves (some p)) →
    (∀ opts, w.fetchMessages chat (k + rest.length) opts = .resolves (some [])) →
    (∀ p ∈ rest, p ≠ []) →
    (∀ p ∈ rest, ∀ m ∈ p, m.id ≠ none) →
    rest.length < fuel →
    (paginate w chat cid deadline fuel k before seen st).1 = .done ∧
    idsOf ((paginate w chat cid deadline fuel k before seen st).2.fs (Path.messages cid)) =
      idsOf (st.fs (Path.messages cid)) ++ freshIds seen (rest.flatten.filterMap messageId) ∧
    isEnded ((paginate w chat cid deadline fuel k before seen st).2.fs (Path.messages cid)) =
      isEnded (st.fs (Path.messages cid)) := by
  intro rest
  induction rest with
  | nil =>
    intro fuel k before seen st _ hend _ _ hfuel
    obtain ⟨f, rfl⟩ : ∃ f, fuel = f + 1 := ⟨fuel - 1, by simp at hfuel; omega⟩
    have he := hend
    simp only [List.length_nil, Nat.add_zero] at he
    simp [paginate, hd, he, freshIds]
  | cons p rest ih =>
    intro fuel k before seen st hpages hend hne hid hfuel
    obtain ⟨f, rfl⟩ : ∃ f, fuel = f + 1 := ⟨fuel - 1, by simp at hfuel; omega⟩
    have hp : p ≠ [] := hne p (List.mem_cons_self _ _)
    obtain ⟨m, ms, rfl⟩ : ∃ m ms, p = m :: ms := by
      cases p with
      | nil => exact absurd rfl hp
      | cons m ms => exact ⟨m, ms, rfl⟩
    have hfetch : ∀ opts, w.fetchMessages chat k opts = .resolves (some (m :: ms)) := by
      intro opts
      have := hpages 0 (m :: ms) opts (by simp)
      simpa using this
    have hlast : ((m :: ms).getLast (List.cons_ne_nil m ms)).id ≠ none :=
      hid (m :: ms) (List.mem_cons_self _ _) _ (List.getLast_mem _)
    obtain ⟨i, hi⟩ := Option.ne_none_iff_exists'.mp hlast
    have hrec := ih f (k + 1) i._serialized
      (((m :: ms).foldl (writeMessage w cid)
        (seen, { st with fetches := st.fetches ++
          [(chat, if truthy before then { limit := 500, before := before }
                  else { limit := 500, before := none })] })).1)
      (((m :: ms).foldl (writeMessage w cid)
        (seen, { st with fetches := st.fetches ++
          [(chat, if truthy before then { limit := 500, before := before }
                  else { limit := 500, before := none })] })).2)
      (by
        intro j q opts hq
        have := hpages (j + 1) q opts (by simpa using hq)
        rw [show k + 1 + j = k + (j + 1) by omega]
        exact this)
      (by
        intro opts
        have := hend opts
        rw [show k + 1 + rest.length = k + ((m :: ms) :: rest).length by simp; omega]
        exact this)
      (fun q hq => hne q (List.mem_cons_of_mem _ hq))
      (fun q hq => hid q (List.mem_cons_of_mem _ hq))
      (by simp at hfuel; omega)
    obtain ⟨f1, f2, f3⟩ := foldl_writeMessage_ids w cid (m :: ms) seen
      { st with fetches := st.fetches ++
          [(chat, if truthy before then { limit := 500, before := before }
                  else { limit := 500, before := none })] }
    obtain ⟨r1, r2, r3⟩ := hrec
    rw [paginate]
    simp only [hd, Bool.false_eq_true, if_false, hfetch, hi]
    refine ⟨r1, ?_, ?_⟩
    · rw [r2, f2, f1]
      simp only [List.flatten_cons, List.filterMap_append, freshIds_append, List.append_assoc]
    · rw [r3, f3]

theorem messageId_of_serialized (m : Message) (i : JsId) (s : JsString)
    (hm : m.id = some i) (hs : i._serialized = some s) (hne : s ≠ []) :
    messageId m = some s := by
  cases s with
  | nil => exact absurd rfl hne
  | cons c cs => simp [messageId, hm, hs, orStr, truthy]

theorem filterMap_messageId_eq (ms : List Message)
    (hid : ∀ m ∈ ms, ∃ i s, m.id = some i ∧ i._serialized = some s ∧ s ≠ []) :
    ms.filterMap messageId = ms.filterMap (fun m => m.id.bind (fun i => i._serialized)) := by
  induction ms with
  | nil => rfl
  | cons m ms ih =>
    obtain ⟨i, s, hm, hs, hne⟩ := hid m (List.mem_cons_self _ _)
    have h1 := messageId_of_serialized m i s hm hs hne
    have h2 : m.id.bind (fun i => i._serialized) = some s := by simp [hm, hs]
    simp only [List.filterMap_cons, h1, h2]
    rw [ih (fun m' hm' => hid m' (List.mem_cons_of_mem _ hm'))]

/-- C1: for a non-group chat whose `fetchMessages` calls return the non-empty pages
`pages` and then an empty page, every message having a non-empty `id._serialized`, the
deadline never being reached, `exportChat` returns (any fuel above the number of pages
is enough) and the ids of the lines of `messages.jsonl` are the ids of the
concatenated pages with every repeated occurrence after the first removed, in
first-occurrence order; no id is written twice and every id of the pages is written. -/
theorem exportChat_dedup (w : World) (chat : Chat) (deadline : Option Nat) (cid : JsString)
    (pages : List (List Message)) (fuel : Nat) (st : State)
    (hgroup : chat.isGroup = false) (hcid : chatId chat = some cid)
    (hpages : ∀ j p opts, pages[j]? = some p →
      w.fetchMessages chat j opts = .resolves (some p))
    (hend : ∀ opts, w.fetchMessages chat pages.length opts = .resolves (some []))
    (hne : ∀ p ∈ pages, p ≠ [])
    (hid : ∀ p ∈ pages, ∀ m ∈ p, ∃ i s, m.id = some i ∧ i._serialized = some s ∧ s ≠ [])
    (hd : ∀ k, deadlinePassed deadline (w.now chat k) = false)
    (hfuel : pages.length < fuel) :
    (exportChat w chat deadline fuel st).1 = .done ∧
    idsOf ((exportChat w chat deadline fuel st).2.fs (Path.messages cid)) =
      keepFirst (pages.flatten.filterMap (fun m => m.id.bind (fun i => i._serialized))) ∧
    (idsOf ((exportChat w chat deadline fuel st).2.fs (Path.messages cid))).Nodup ∧
    ∀ x ∈ pages.flatten.filterMap (fun m => m.id.bind (fun i => i._serialized)),
      x ∈ idsOf ((exportChat w chat deadline fuel st).2.fs (Path.messages cid)) := by
  have hid' : ∀ p ∈ pages, ∀ m ∈ p, m.id ≠ none := by
    intro p hp m hm
    obtain ⟨i, s, h, -⟩ := hid p hp m hm
    simp [h]
  have hflat : ∀ m ∈ pages.flatten,
      ∃ i s, m.id = some i ∧ i._serialized = some s ∧ s ≠ [] := by
    intro m hm
    obtain ⟨p, hp, hmp⟩ := List.mem_flatten.mp hm
    exact hid p hp m hmp
  obtain ⟨r1, r2, -⟩ := paginate_script w chat cid deadline hd pages fuel 0 none []
    ((st.write (Path.chatJson cid) (File.json (metaOf chat))).write (Path.messages cid)
      (File.log [] false))
    (by intro j p opts h; simpa using hpages j p opts h)
    (by intro opts; simpa using hend opts) hne hid' hfuel
  have hids : idsOf ((exportChat w chat deadline fuel st).2.fs (Path.messages cid)) =
      keepFirst (pages.flatten.filterMap (fun m => m.id.bind (fun i => i._serialized))) := by
    unfold exportChat
    simp only [hgroup, Bool.false_eq_true, if_false, hcid]
    split
    · rename_i st3 heq
      rw [heq] at r2
      simp only [State.endStream, write_fs_same, idsOf, linesOf] at r2 ⊢
      rw [r2, freshIds_nil, filterMap_messageId_eq _ hflat]
      simp
    · rename_i hno
      exact (hno _ (Prod.ext r1 rfl)).elim
  have hstatus : (exportChat w chat deadline fuel st).1 = .done := by
    unfold exportChat
    simp only [hgroup, Bool.false_eq_true, if_false, hcid]
    split
    · rfl
    · rename_i hno
      exact (hno _ (Prod.ext r1 rfl)).elim
  refine ⟨hstatus, hids, ?_, ?_⟩
  · rw [hids]
    exact keepFirst_nodup _
  · intro x hx
    rw [hids]
    exact (mem_keepFirst _ _).mpr hx

/-- The pages `[5,4,3]` then `[3,2,1]` give the lines 5,4,3,2,1, under a deadline of
5000 that the clock (1000) does not reach. -/
theorem exportChat_dedup_witness :
    (exportChat sampleWorld sampleChat (some 5000) 3 State.init).1 = .done ∧
    idsOf ((exportChat sampleWorld sampleChat (some 5000) 3 State.init).2.fs
      (Path.messages (lit "1@c.us"))) = [lit "5", lit "4", lit "3", lit "2", lit "1"] := by
  have h := exportChat_dedup sampleWorld sampleChat (some 5000) (lit "1@c.us") samplePages 3
    State.init rfl rfl
    (by
      intro j p opts hp
      simp [sampleWorld, List.getD_eq_getElem?_getD, hp])
    (by intro opts; rfl)
    (by simp [samplePages])
    (by simp [samplePages, sampleMessage])
    (by intro k; rfl)
    (by decide)
  exact ⟨h.1, h.2.1.trans (by decide)⟩

/-! ### The deadline -/

/-- C4: for a non-group chat and a deadline `d > 0` that the clock has passed when the
pagination loop starts, `exportChat` returns without error (one unit of fuel is
enough), has written `chat.json` with `{id, name, isGroup}`, has made no
`fetchMessages` call, and `messages.jsonl` has zero lines and an ended stream. -/
theorem exportChat_deadline_passed (w : World) (chat : Chat) (cid : JsString) (d fuel : Nat)
    (st : State) (hgroup : chat.isGroup = false) (hcid : chatId chat = some cid)
    (hd : 0 < d) (hnow : d < w.now chat 0) (hfuel : 0 < fuel) :
    (exportChat w chat (some d) fuel st).1 = .done ∧
    (exportChat w chat (some d) fuel st).2.fs (Path.chatJson cid) =
      some (File.json
        { id := some cid, name := orLit (orStr chat.name chat.formattedTitle) [],
          isGroup := false }) ∧
    (exportChat w chat (some d) fuel st).2.fetches = st.fetches ∧
    (exportChat w chat (some d) fuel st).2.fs (Path.messages cid) = some (File.log [] true) := by
  obtain ⟨f, rfl⟩ : ∃ f, fuel = f + 1 := ⟨fuel - 1, by omega⟩
  have hpass : deadlinePassed (some d) (w.now chat 0) = true := by
    simp only [deadlinePassed, Bool.and_eq_true, bne_iff_ne, decide_eq_true_eq]
    exact ⟨by omega, hnow⟩
  have hne : Path.chatJson cid ≠ Path.messages cid := by
    intro h
    cases h
  simp [exportChat, hgroup, hcid, paginate, hpass, State.endStream, linesOf, metaOf,
    write_fs_other _ _ _ _ hne]

/-- With the clock at 1000 and the deadline 500 the sample chat gets its `chat.json`
and an empty, ended `messages.jsonl`. -/
theorem exportChat_deadline_passed_witness :
    (exportChat sampleWorld sampleChat (some 500) 1 State.init).1 = .done ∧
    (exportChat sampleWorld sampleChat (some 500) 1 State.init).2.fs
        (Path.chatJson (lit "1@c.us")) =
      some (File.json { id := some (lit "1@c.us"), name := lit "Ana", isGroup := false }) ∧
    (exportChat sampleWorld sampleChat (some 500) 1 State.init).2.fetches = [] ∧
    (exportChat sampleWorld sampleChat (some 500) 1 State.init).2.fs
        (Path.messages (lit "1@c.us")) = some (File.log [] true) :=
  exportChat_deadline_passed sampleWorld sampleChat (lit "1@c.us") 500 1 State.init rfl rfl
    (by decide) (by decide) (by decide)

/-! ### Errors inside the pagination loop -/

/-- C7, at the failing inputs: when the first `fetchMessages` call rejects, and when
the last message of a page has no `id` object, `exportChat` throws after it opened
`messages.jsonl`, and the stream has not been ended. -/
theorem exportChat_throw_leaves_stream_open :
    (exportChat rejectingWorld sampleChat none 5 State.init).1 = .threw ∧
    (exportChat rejectingWorld sampleChat none 5 State.init).2.fs
        (Path.messages (lit "1@c.us")) = some (File.log [] false) ∧
    (exportChat lastWithoutIdWorld sampleChat none 5 State.init).1 = .threw ∧
    isEnded ((exportChat lastWithoutIdWorld sampleChat none 5 State.init).2.fs
        (Path.messages (lit "1@c.us"))) = false ∧
    idsOf ((exportChat lastWithoutIdWorld sampleChat none 5 State.init).2.fs
        (Path.messages (lit "1@c.us"))) = [lit "7"] := by
  refine ⟨by decide, by decide, by decide, by decide, by decide⟩

/-- C8, at the failing input: a page whose last message has `id.id = 'A'` and no
`id._serialized` is written with the record id `A`, and the fetch after it carries no
cursor at all (it is the first fetch again), not the cursor `A`. -/
theorem exportChat_cursor_lost :
    idsOf ((exportChat plainIdWorld sampleChat none 2 State.init).2.fs
        (Path.messages (lit "1@c.us"))) = [lit "A"] ∧
    (exportChat plainIdWorld sampleChat none 2 State.init).2.fetches =
      [(sampleChat, { limit := 500, before := none }),
       (sampleChat, { limit := 500, before := none })] := by
  refine ⟨by decide, by decide⟩

/-! ### Media -/

theorem not_qualifies_nil : ¬ ((lit "image/").isPrefixOf ([] : JsString) = true ∨
    (lit "video/").isPrefixOf ([] : JsString) = true) := by
  decide

/-- What `saveMediaIfImageOrVideo` returns, by cases of its environment. -/
theorem saveMedia_result (w : World) (m : Message) (cid : JsString) (st : State) :
    (∀ p, (saveMediaIfImageOrVideo w m cid st).1 = .resolves (some p) ↔
      ∃ media s, m.downloadMedia = .resolves (some media) ∧ Qualifies media ∧
        w.ensureDirOk cid = true ∧ m.id.bind (fun i => i._serialized) = some s ∧
        w.writeFileOk (mediaFile w cid s media) = true ∧ p = mediaFile w cid s media) ∧
    (∀ p, (saveMediaIfImageOrVideo w m cid st).1 = .resolves (some p) →
      ∃ media, m.downloadMedia = .resolves (some media) ∧
        (saveMediaIfImageOrVideo w m cid st).2.fs p = some (File.blob media.data)) := by
  unfold saveMediaIfImageOrVideo
  cases hdl : m.downloadMedia with
  | rejects => simp
  | resolves o =>
    cases o with
    | none => simp
    | some media =>
      have hq : Qualifies media ↔
          ((lit "image/").isPrefixOf (orLit media.mimetype []) ||
           (lit "video/").isPrefixOf (orLit media.mimetype [])) = true := by
        rw [Bool.or_eq_true]
        unfold Qualifies
        cases hmt : media.mimetype with
        | none =>
          simp only [orLit]
          constructor
          · rintro ⟨mt, h, -⟩
            cases h
          · intro h
            exact absurd h not_qualifies_nil
        | some mt =>
          cases mt with
          | nil =>
            simp only [orLit]
            constructor
            · rintro ⟨mt, h, hp⟩
              cases h
              simpa [List.isPrefixOf_iff_prefix] using hp
            · intro h
              exact absurd h not_qualifies_nil
          | cons c cs =>
            simp only [orLit, List.isPrefixOf_iff_prefix]
            constructor
            · rintro ⟨mt, h, hp⟩
              cases h
              exact hp
            · intro h
              exact ⟨_, rfl, h⟩
      simp only []
      generalize ((lit "image/").isPrefixOf (orLit media.mimetype []) ||
           (lit "video/").isPrefixOf (orLit media.mimetype [])) = qb at hq ⊢
      cases qb
      · have hnQ : ¬ Qualifies media := by
          intro h
          exact Bool.false_ne_true (hq.mp h)
        simp only [Bool.not_false, if_true]
        refine ⟨fun p => ⟨fun h => ?_, fun h => ?_⟩, fun p h => ?_⟩
        · cases h
        · obtain ⟨media1, s1, e1, e2, -⟩ := h
          cases e1
          exact absurd e2 hnQ
        · cases h
      · have hQ : Qualifies media := hq.mpr rfl
        simp only [Bool.not_true, Bool.false_eq_true, if_false]
        cases hdir : w.ensureDirOk cid
        · simp only [Bool.not_false, if_true]
          refine ⟨fun p => ⟨fun h => ?_, fun h => ?_⟩, fun p h => ?_⟩
          · cases h
          · obtain ⟨media1, s1, -, -, e3, -⟩ := h
            cases e3
          · cases h
        · simp only [Bool.not_true, Bool.false_eq_true, if_false]
          cases hs : m.id.bind (fun i => i._serialized) with
          | none =>
            simp only []
            refine ⟨fun p => ⟨fun h => ?_, fun h => ?_⟩, fun p h => ?_⟩
            · cases h
            · obtain ⟨media1, s1, -, -, -, e4, -⟩ := h
              cases e4
            · cases h
          | some s =>
            simp only []
            have hmf : Path.media cid (sanitize s ++ lit "." ++
                orLit (w.extension (orLit media.mimetype [])) (lit "bin")) =
                mediaFile w cid s media := rfl
            rw [hmf]
            cases hw : w.writeFileOk (mediaFile w cid s media)
            · simp only [Bool.not_false, if_true]
              refine ⟨fun p => ⟨fun h => ?_, fun h => ?_⟩, fun p h => ?_⟩
              · cases h
              · obtain ⟨media1, s1, e1, -, -, e4, e5, -⟩ := h
                cases e1
                cases e4
                rw [hw] at e5
                cases e5
              · cases h
            · simp only [Bool.not_true, Bool.false_eq_true, if_false]
              refine ⟨fun p => ⟨fun h => ?_, fun h => ?_⟩, fun p h => ?_⟩
              · cases h
                exact ⟨media, s, rfl, hQ, trivial, rfl, hw, rfl⟩
              · obtain ⟨media1, s1, e1, -, -, e4, -, e6⟩ := h
                cases e1
                cases e4
                rw [e6]
              · cases h
                exact ⟨media, rfl, write_fs_same _ _ _⟩

theorem attachMedia_some (w : World) (m : Message) (cid : JsString) (st : State) (p : Path) :
    (attachMedia w m cid st).1 = some p ↔
      m.hasMedia = true ∧ (saveMediaIfImageOrVideo w m cid st).1 = .resolves (some p) := by
  unfold attachMedia
  cases hm : m.hasMedia
  · simp
  · simp only [if_true, true_and]
    split
    · rename_i q st1 heq
      rw [heq]
      simp
    · rename_i st1 heq
      rw [heq]
      simp

theorem attachMedia_state (w : World) (m : Message) (cid : JsString) (st : State) (p : Path)
    (h : (attachMedia w m cid st).1 = some p) :
    (attachMedia w m cid st).2 = (saveMediaIfImageOrVideo w m cid st).2 := by
  unfold attachMedia at h ⊢
  cases hm : m.hasMedia
  · simp [hm] at h
  · simp only [if_true]
    split
    · rename_i q st1 heq
      rw [heq]
    · rename_i st1 heq
      rw [heq]

/-- C5: for every message that `exportChat` writes (its id `mid` is defined and not
seen), the loop body appends exactly one record, with that id; the record's
`hasMedia` is true exactly when its `mediaPath` is non-null; `mediaPath` is non-null
if and only if the message declares media, `downloadMedia` returned an attachment
whose content type starts with `image/` or `video/`, and persisting it succeeded. An
attachment of type `audio/mpeg` gives `hasMedia: false, mediaPath: null`; one of type
`image/png` that is persisted gives the path `media/<chatId>/<sanitize(id)>.<ext>`,
where the attachment's data has been written. -/
theorem media_gating (w : World) (cid : JsString) (seen : List JsString) (st : State)
    (m : Message) (mid : JsString) (hmid : messageId m = some mid) (hfresh : mid ∉ seen) :
    ∃ row : Row,
      linesOf ((writeMessage w cid (seen, st) m).2.fs (Path.messages cid)) =
        linesOf (st.fs (Path.messages cid)) ++ [row] ∧
      row.id = mid ∧
      (row.hasMedia = true ↔ row.mediaPath ≠ none) ∧
      (row.mediaPath ≠ none ↔
        m.hasMedia = true ∧ ∃ media, m.downloadMedia = .resolves (some media) ∧
          Qualifies media ∧ Persisted w cid m media) ∧
      (∀ media, m.downloadMedia = .resolves (some media) →
        media.mimetype = some (lit "audio/mpeg") →
        row.hasMedia = false ∧ row.mediaPath = none) ∧
      (∀ media s, m.hasMedia = true → m.downloadMedia = .resolves (some media) →
        media.mimetype = some (lit "image/png") →
        m.id.bind (fun i => i._serialized) = some s → w.ensureDirOk cid = true →
        w.writeFileOk (mediaFile w cid s media) = true →
        row.mediaPath = some (mediaFile w cid s media) ∧
        (writeMessage w cid (seen, st) m).2.fs (mediaFile w cid s media) =
          some (File.blob media.data)) := by
  have hiff : (attachMedia w m cid st).1 ≠ none ↔
      m.hasMedia = true ∧ ∃ media, m.downloadMedia = .resolves (some media) ∧
        Qualifies media ∧ Persisted w cid m media := by
    rw [Option.ne_none_iff_exists']
    constructor
    · rintro ⟨p, hp⟩
      obtain ⟨hm, hsave⟩ := (attachMedia_some w m cid st p).mp hp
      obtain ⟨media, s, h1, h2, h3, h4, h5, -⟩ := ((saveMedia_result w m cid st).1 p).mp hsave
      exact ⟨hm, media, h1, h2, h3, s, h4, h5⟩
    · rintro ⟨hm, media, h1, h2, h3, s, h4, h5⟩
      exact ⟨mediaFile w cid s media, (attachMedia_some w m cid st _).mpr
        ⟨hm, ((saveMedia_result w m cid st).1 _).mpr ⟨media, s, h1, h2, h3, h4, h5, rfl⟩⟩⟩
  have hw : writeMessage w cid (seen, st) m =
      (mid :: seen, (attachMedia w m cid st).2.appendLine (Path.messages cid)
        (rowOf m mid (attachMedia w m cid st).1)) := by
    simp [writeMessage, hmid, hfresh]
  refine ⟨rowOf m mid (attachMedia w m cid st).1, ?_, rfl, ?_, hiff, ?_, ?_⟩
  · rw [hw]
    simp [State.appendLine, linesOf,
      attachMedia_fs_other w m cid st (Path.messages cid) (fun f => messages_ne_media cid cid f)]
  · simp [rowOf, Option.isSome_iff_ne_none]
  · intro media hdl hmt
    have hnq : ¬ Qualifies media := by
      rintro ⟨mt, h1, h2⟩
      rw [hmt] at h1
      cases h1
      revert h2
      decide
    have hnone : (attachMedia w m cid st).1 = none := by
      by_contra hne
      obtain ⟨-, media1, h1, h2, -⟩ := hiff.mp hne
      rw [hdl] at h1
      cases h1
      exact hnq h2
    simp [rowOf, hnone]
  · intro media s hm hdl hmt hs hdir hwr
    have hq : Qualifies media := ⟨_, hmt, Or.inl (by decide)⟩
    have hsave := ((saveMedia_result w m cid st).1 (mediaFile w cid s media)).mpr
      ⟨media, s, hdl, hq, hdir, hs, hwr, rfl⟩
    have hatt := (attachMedia_some w m cid st _).mpr ⟨hm, hsave⟩
    refine ⟨by simp [rowOf, hatt], ?_⟩
    obtain ⟨media1, h1, h2⟩ := (saveMedia_result w m cid st).2 _ hsave
    rw [hdl] at h1
    cases h1
    rw [hw]
    simp only [State.appendLine]
    rw [write_fs_other _ _ _ _ (by intro h; cases h), attachMedia_state w m cid st _ hatt]
    exact h2

/-- An `image/png` attachment of message 7 of chat `1@c.us` is written to
`media/1@c.us/7.png` and the record carries that path. -/
theorem media_gating_witness :
    ∃ row : Row,
      linesOf ((writeMessage sampleWorld (lit "1@c.us") ([], State.init)
        (mediaMessage (lit "image/png"))).2.fs (Path.messages (lit "1@c.us"))) = [row] ∧
      row.id = lit "7" ∧ row.hasMedia = true ∧
      row.mediaPath = some (Path.media (lit "1@c.us") (lit "7.png")) := by
  obtain ⟨row, h1, h2, h3, -, -, h6⟩ := media_gating sampleWorld (lit "1@c.us") [] State.init
    (mediaMessage (lit "image/png")) (lit "7") (by decide) (by decide)
  have hp := (h6 { mimetype := some (lit "image/png"), data := lit "AAAA" } (lit "7")
    rfl rfl rfl (by decide) rfl (by decide)).1
  have hpath : mediaFile sampleWorld (lit "1@c.us") (lit "7")
      { mimetype := some (lit "image/png"), data := lit "AAAA" } =
      Path.media (lit "1@c.us") (lit "7.png") := by decide
  refine ⟨row, by simpa [State.init, linesOf] using h1, h2, ?_, hp.trans (by rw [hpath])⟩
  rw [h3, hp]
  simp

/-! ### What an export leaves alone -/

theorem writeMessage_frame (w : World) (cid : JsString) (acc : List JsString × State)
    (m : Message) (p : Path) (hp1 : p ≠ Path.messages cid) (hp2 : ∀ f, p ≠ Path.media cid f) :
    (writeMessage w cid acc m).2.fs p = acc.2.fs p ∧
    (writeMessage w cid acc m).2.dispatched = acc.2.dispatched := by
  unfold writeMessage
  split
  · exact ⟨rfl, rfl⟩
  · split
    · exact ⟨rfl, rfl⟩
    · simp only [State.appendLine, write_dispatched]
      rw [write_fs_other _ _ _ _ hp1]
      exact ⟨attachMedia_fs_other w m cid acc.2 p hp2, (attachMedia_fetches w m cid acc.2).2⟩

theorem foldl_writeMessage_frame (w : World) (cid : JsString) (ms : List Message) (p : Path)
    (hp1 : p ≠ Path.messages cid) (hp2 : ∀ f, p ≠ Path.media cid f) :
    ∀ acc : List JsString × State,
    (ms.foldl (writeMessage w cid) acc).2.fs p = acc.2.fs p ∧
    (ms.foldl (writeMessage w cid) acc).2.dispatched = acc.2.dispatched := by
  induction ms with
  | nil => intro acc; exact ⟨rfl, rfl⟩
  | cons m ms ih =>
    intro acc
    obtain ⟨h1, h2⟩ := writeMessage_frame w cid acc m p hp1 hp2
    obtain ⟨i1, i2⟩ := ih (writeMessage w cid acc m)
    simp only [List.foldl_cons]
    exact ⟨i1.trans h1, i2.trans h2⟩

theorem paginate_frame (w : World) (chat : Chat) (cid : JsString) (deadline : Option Nat)
    (p : Path) (hp1 : p ≠ Path.messages cid) (hp2 : ∀ f, p ≠ Path.media cid f) :
    ∀ (fuel k : Nat) (before : Option JsString) (seen : List JsString) (st : State),
    (paginate w chat cid deadline fuel k before seen st).2.fs p = st.fs p ∧
    (paginate w chat cid deadline fuel k before seen st).2.dispatched = st.dispatched := by
  intro fuel
  induction fuel with
  | zero => intro k before seen st; exact ⟨rfl, rfl⟩
  | succ f ih =>
    intro k before seen st
    rw [paginate]
    split
    · exact ⟨rfl, rfl⟩
    · dsimp only
      split
      · exact ⟨rfl, rfl⟩
      · exact ⟨rfl, rfl⟩
      · exact ⟨rfl, rfl⟩
      · rename_i m ms _
        obtain ⟨f1, f2⟩ := foldl_writeMessage_frame w cid (m :: ms) p hp1 hp2
          (seen, { st with fetches := st.fetches ++
            [(chat, if truthy before then { limit := 500, before := before }
                    else { limit := 500, before := none })] })
        split
        · exact ⟨f1, f2⟩
        · rename_i i _
          obtain ⟨r1, r2⟩ := ih (k + 1) i._serialized
            ((m :: ms).foldl (writeMessage w cid)
              (seen, { st with fetches := st.fetches ++
                [(chat, if truthy before then { limit := 500, before := before }
                        else { limit := 500, before := none })] })).1
            ((m :: ms).foldl (writeMessage w cid)
              (seen, { st with fetches := st.fetches ++
                [(chat, if truthy before then { limit := 500, before := before }
                        else { limit := 500, before := none })] })).2
          exact ⟨r1.trans f1, r2.trans f2⟩

/-- An export writes only below its own chat id and hands no chat to anyone. -/
theorem exportChat_frame (w : World) (chat : Chat) (deadline : Option Nat) (fuel : Nat)
    (st : State) (p : Path) (hp : ∀ cid, chatId chat = some cid → Foreign cid p) :
    (exportChat w chat deadline fuel st).2.fs p = st.fs p ∧
    (exportChat w chat deadline fuel st).2.dispatched = st.dispatched := by
  unfold exportChat
  split
  · exact ⟨rfl, rfl⟩
  · cases hc : chatId chat with
    | none => exact ⟨rfl, rfl⟩
    | some cid =>
      obtain ⟨h1, h2, h3⟩ := hp cid hc
      obtain ⟨r1, r2⟩ := paginate_frame w chat cid deadline p h2 h3 fuel 0 none []
        ((st.write (Path.chatJson cid) (File.json (metaOf chat))).write (Path.messages cid)
          (File.log [] false))
      rw [write_fs_other _ _ _ _ h2, write_fs_other _ _ _ _ h1] at r1
      dsimp only
      split
      · rename_i st3 heq
        rw [heq] at r1 r2
        simp only [State.endStream, write_dispatched]
        rw [write_fs_other _ _ _ _ h2]
        exact ⟨r1, r2⟩
      · exact ⟨r1, r2⟩

/-! ### The chat filter -/

theorem isDirectChat_iff (c : Chat) : isDirectChat c = true ↔ Eligible c := by
  have hid : orLit (c.id.bind (fun i => i._serialized)) [] = idString c := by
    unfold idString chatId
    cases h : c.id.bind (fun i => i._serialized) with
    | none => rfl
    | some s =>
      cases s with
      | nil => rfl
      | cons a l => rfl
  unfold isDirectChat Eligible
  simp only [hid, Bool.and_eq_true, Bool.not_eq_true', bne_iff_ne, ne_eq,
    Bool.not_eq_true, ← Bool.not_eq_true, List.isSuffixOf_iff_suffix]
  tauto

theorem directChats_eq (chats : List Chat) :
    directChats chats = chats.filter (fun c => decide (Eligible c)) := by
  unfold directChats
  apply List.filter_congr
  intro c _
  by_cases h : Eligible c
  · simp [h, (isDirectChat_iff c).mpr h]
  · have : isDirectChat c = false := by
      cases hb : isDirectChat c
      · rfl
      · exact absurd ((isDirectChat_iff c).mp hb) h
    simp [h, this]

theorem index_foreign (cid : JsString) : Foreign cid Path.index := by
  refine ⟨?_, ?_, ?_⟩
  · intro h
    cases h
  · intro h
    cases h
  · intro f h
    cases h

theorem settleAll_frame (w : World) (deadline : Option Nat) (fuel : Nat) (cs : List Chat) :
    ∀ (st : State) (p : Path),
    (∀ c ∈ cs, ∀ cid, chatId c = some cid → Foreign cid p) →
    (settleAll w deadline fuel cs st).2.fs p = st.fs p := by
  induction cs with
  | nil => intro st p _; rfl
  | cons c cs ih =>
    intro st p hp
    simp only [settleAll]
    rw [ih _ p (fun c' hc' => hp c' (List.mem_cons_of_mem _ hc'))]
    exact (exportChat_frame w c deadline fuel _ p (hp c (List.mem_cons_self _ _))).1

theorem settleAll_dispatched (w : World) (deadline : Option Nat) (fuel : Nat)
    (cs : List Chat) :
    ∀ st : State, (settleAll w deadline fuel cs st).2.dispatched = st.dispatched ++ cs := by
  induction cs with
  | nil => intro st; simp [settleAll]
  | cons c cs ih =>
    intro st
    simp only [settleAll]
    rw [ih, (exportChat_frame w c deadline fuel _ Path.index
      (fun cid _ => index_foreign cid)).2]
    simp

theorem exportAll_eq (w : World) (deadline : Option Nat) (fuel : Nat) (st : State)
    (chats : List Chat) (hsync : (waitForChatSync w 300000 fuel).ended = true)
    (hget : w.getChats = .resolves chats) :
    exportAll w deadline fuel st = exportAllChats w deadline fuel chats st := by
  unfold exportAll
  cases h : waitForChatSync w 300000 fuel with
  | stable n => simp [hget]
  | timedOut n => simp [hget]
  | rejected n => simp [h, SyncEnd.ended] at hsync
  | pending => simp [h, SyncEnd.ended] at hsync

/-- C2: when the wait for the chat list has ended and `getChats` has returned `chats`,
each with an `id` object, the list `directChats` is `chats` filtered, in the original
order, by: not a group, id different from `0@c.us`, id not ending in `@g.us`,
`@broadcast` or `@newsletter`; `index.json` holds the entries of exactly these chats
and exactly these chats are handed to `exportChat`, in that order. -/
theorem exportAll_filter (w : World) (deadline : Option Nat) (fuel : Nat) (st : State)
    (chats : List Chat) (hsync : (waitForChatSync w 300000 fuel).ended = true)
    (hget : w.getChats = .resolves chats) (hid : ∀ c ∈ chats, c.id ≠ none) :
    directChats chats = chats.filter (fun c => decide (Eligible c)) ∧
    (exportAll w deadline fuel st).2.fs Path.index =
      some (File.index ((chats.filter (fun c => decide (Eligible c))).map metaOf)) ∧
    (exportAll w deadline fuel st).2.dispatched =
      st.dispatched ++ chats.filter (fun c => decide (Eligible c)) := by
  have hany : (directChats chats).any (fun c => c.id.isNone) = false := by
    rw [Bool.eq_false_iff]
    intro h
    obtain ⟨c, hc, hn⟩ := List.any_eq_true.mp h
    have hmem : c ∈ chats := List.mem_of_mem_filter hc
    exact hid c hmem (Option.isNone_iff_eq_none.mp hn)
  rw [exportAll_eq w deadline fuel st chats hsync hget]
  unfold exportAllChats
  simp only [hany, Bool.false_eq_true, if_false]
  refine ⟨directChats_eq chats, ?_, ?_⟩
  · rw [settleAll_frame w deadline fuel _ _ Path.index (fun c _ cid _ => index_foreign cid)]
    rw [write_fs_same, directChats_eq]
  · rw [settleAll_dispatched, write_dispatched, directChats_eq]

/-- Of the chats `1@c.us`, `1@g.us` (group), `0@c.us` and `x@broadcast` exactly
`1@c.us` is eligible, indexed and exported. -/
theorem exportAll_filter_witness :
    directChats fourChats = [chatWithId "1@c.us" false] ∧
    (exportAll fourChatsWorld none 5 State.init).2.fs Path.index =
      some (File.index [{ id := some (lit "1@c.us"), name := [], isGroup := false }]) ∧
    (exportAll fourChatsWorld none 5 State.init).2.dispatched = [chatWithId "1@c.us" false] := by
  obtain ⟨h1, h2, h3⟩ := exportAll_filter fourChatsWorld none 5 State.init fourChats
    (by decide) rfl (by decide)
  refine ⟨h1.trans (by decide), h2.trans (by decide), h3.trans (by decide)⟩

/-! ### An export does not read the archive -/

theorem attachMedia_path_indep (w : World) (m : Message) (cid : JsString) (st1 st2 : State) :
    (attachMedia w m cid st1).1 = (attachMedia w m cid st2).1 := by
  apply Option.ext
  intro p
  simp only [Option.mem_def]
  rw [attachMedia_some, attachMedia_some, (saveMedia_result w m cid st1).1 p,
    (saveMedia_result w m cid st2).1 p]

theorem writeMessage_indep (w : World) (cid : JsString) (seen : List JsString)
    (st1 st2 : State) (m : Message)
    (h : st1.fs (Path.messages cid) = st2.fs (Path.messages cid)) :
    (writeMessage w cid (seen, st1) m).1 = (writeMessage w cid (seen, st2) m).1 ∧
    (writeMessage w cid (seen, st1) m).2.fs (Path.messages cid) =
      (writeMessage w cid (seen, st2) m).2.fs (Path.messages cid) := by
  unfold writeMessage
  cases messageId m with
  | none => exact ⟨rfl, h⟩
  | some mid =>
    by_cases hs : mid ∈ seen
    · simp only [hs, if_true]
      exact ⟨trivial, h⟩
    · simp only [hs, if_false, State.appendLine, write_fs_same, true_and]
      rw [attachMedia_fs_other w m cid st1 _ (fun f => messages_ne_media cid cid f),
        attachMedia_fs_other w m cid st2 _ (fun f => messages_ne_media cid cid f),
        attachMedia_path_indep w m cid st1 st2, h]

theorem foldl_writeMessage_indep (w : World) (cid : JsString) (ms : List Message) :
    ∀ (seen : List JsString) (st1 st2 : State),
    st1.fs (Path.messages cid) = st2.fs (Path.messages cid) →
    (ms.foldl (writeMessage w cid) (seen, st1)).1 =
      (ms.foldl (writeMessage w cid) (seen, st2)).1 ∧
    (ms.foldl (writeMessage w cid) (seen, st1)).2.fs (Path.messages cid) =
      (ms.foldl (writeMessage w cid) (seen, st2)).2.fs (Path.messages cid) := by
  induction ms with
  | nil => intro seen st1 st2 h; exact ⟨rfl, h⟩
  | cons m ms ih =>
    intro seen st1 st2 h
    obtain ⟨h1, h2⟩ := writeMessage_indep w cid seen st1 st2 m h
    simp only [List.foldl_cons]
    have e1 : writeMessage w cid (seen, st1) m =
        ((writeMessage w cid (seen, st2) m).1, (writeMessage w cid (seen, st1) m).2) :=
      Prod.ext h1 rfl
    have e2 : writeMessage w cid (seen, st2) m =
        ((writeMessage w cid (seen, st2) m).1, (writeMessage w cid (seen, st2) m).2) := rfl
    rw [e1, e2]
    exact ih _ _ _ h2

/-- The status of the pagination loop and the log it leaves do not depend on what
the archive held elsewhere. -/
theorem paginate_indep (w : World) (chat : Chat) (cid : JsString) (deadline : Option Nat) :
    ∀ (fuel k : Nat) (before : Option JsString) (seen : List JsString) (st1 st2 : State),
    st1.fs (Path.messages cid) = st2.fs (Path.messages cid) →
    (paginate w chat cid deadline fuel k before seen st1).1 =
      (paginate w chat cid deadline fuel k before seen st2).1 ∧
    (paginate w chat cid deadline fuel k before seen st1).2.fs (Path.messages cid) =
      (paginate w chat cid deadline fuel k before seen st2).2.fs (Path.messages cid) := by
  intro fuel
  induction fuel with
  | zero => intro k before seen st1 st2 h; exact ⟨rfl, h⟩
  | succ f ih =>
    intro k before seen st1 st2 h
    rw [paginate, paginate]
    split
    · exact ⟨rfl, h⟩
    · dsimp only
      split
      · exact ⟨rfl, h⟩
      · exact ⟨rfl, h⟩
      · exact ⟨rfl, h⟩
      · rename_i m ms _
        obtain ⟨f1, f2⟩ := foldl_writeMessage_indep w cid (m :: ms) seen
          { st1 with fetches := st1.fetches ++
            [(chat, if truthy before then { limit := 500, before := before }
                    else { limit := 500, before := none })] }
          { st2 with fetches := st2.fetches ++
            [(chat, if truthy before then { limit := 500, before := before }
                    else { limit := 500, before := none })] } h
        split
        · exact ⟨rfl, f2⟩
        · rename_i i _
          rw [f1]
          exact ih (k + 1) i._serialized _ _ _ f2

/-- The function `exportChat` for a direct chat with an id, by the result of its
pagination loop. -/
theorem exportChat_of_id (w : World) (chat : Chat) (deadline : Option Nat) (fuel : Nat)
    (st : State) (cid : JsString) (hg : chat.isGroup = false) (hc : chatId chat = some cid) :
    (exportChat w chat deadline fuel st).1 =
      (paginate w chat cid deadline fuel 0 none []
        ((st.write (Path.chatJson cid) (File.json (metaOf chat))).write (Path.messages cid)
          (File.log [] false))).1 ∧
    (exportChat w chat deadline fuel st).2 =
      if (paginate w chat cid deadline fuel 0 none []
        ((st.write (Path.chatJson cid) (File.json (metaOf chat))).write (Path.messages cid)
          (File.log [] false))).1 = .done
      then (paginate w chat cid deadline fuel 0 none []
        ((st.write (Path.chatJson cid) (File.json (metaOf chat))).write (Path.messages cid)
          (File.log [] false))).2.endStream (Path.messages cid)
      else (paginate w chat cid deadline fuel 0 none []
        ((st.write (Path.chatJson cid) (File.json (metaOf chat))).write (Path.messages cid)
          (File.log [] false))).2 := by
  unfold exportChat
  simp only [hg, Bool.false_eq_true, if_false, hc]
  rcases paginate w chat cid deadline fuel 0 none []
    ((st.write (Path.chatJson cid) (File.json (metaOf chat))).write (Path.messages cid)
      (File.log [] false)) with ⟨status, st3⟩
  cases status <;> simp

/-- On the exits by `break` (an empty page, the deadline) the stream has been ended. -/
theorem exportChat_done_ended (w : World) (chat : Chat) (deadline : Option Nat) (fuel : Nat)
    (st : State) (cid : JsString) (hg : chat.isGroup = false) (hc : chatId chat = some cid)
    (hdone : (exportChat w chat deadline fuel st).1 = .done) :
    isEnded ((exportChat w chat deadline fuel st).2.fs (Path.messages cid)) = true := by
  obtain ⟨h1, h2⟩ := exportChat_of_id w chat deadline fuel st cid hg hc
  rw [h1] at hdone
  rw [h2, if_pos hdone]
  simp [State.endStream, isEnded]

theorem exportChat_status_indep (w : World) (chat : Chat) (deadline : Option Nat)
    (fuel : Nat) (st1 st2 : State) :
    (exportChat w chat deadline fuel st1).1 = (exportChat w chat deadline fuel st2).1 := by
  cases hg : chat.isGroup
  · cases hc : chatId chat with
    | none => simp [exportChat, hg, hc]
    | some cid =>
      rw [(exportChat_of_id w chat deadline fuel st1 cid hg hc).1,
        (exportChat_of_id w chat deadline fuel st2 cid hg hc).1]
      exact (paginate_indep w chat cid deadline fuel 0 none [] _ _ (by simp)).1
  · simp [exportChat, hg]

/-- The `chat.json` and `messages.jsonl` that an export leaves do not depend on the
archive it started from. -/
theorem exportChat_indep (w : World) (chat : Chat) (deadline : Option Nat) (fuel : Nat)
    (st1 st2 : State) (cid : JsString) (hg : chat.isGroup = false)
    (hc : chatId chat = some cid) :
    (exportChat w chat deadline fuel st1).2.fs (Path.chatJson cid) =
      (exportChat w chat deadline fuel st2).2.fs (Path.chatJson cid) ∧
    (exportChat w chat deadline fuel st1).2.fs (Path.messages cid) =
      (exportChat w chat deadline fuel st2).2.fs (Path.messages cid) := by
  have hne : Path.chatJson cid ≠ Path.messages cid := by
    intro h
    cases h
  have hnm : ∀ f, Path.chatJson cid ≠ Path.media cid f := by
    intro f h
    cases h
  obtain ⟨p1, p2⟩ := paginate_indep w chat cid deadline fuel 0 none []
    ((st1.write (Path.chatJson cid) (File.json (metaOf chat))).write (Path.messages cid)
      (File.log [] false))
    ((st2.write (Path.chatJson cid) (File.json (metaOf chat))).write (Path.messages cid)
      (File.log [] false)) (by simp)
  have q1 := (paginate_frame w chat cid deadline (Path.chatJson cid) hne hnm fuel 0 none []
    ((st1.write (Path.chatJson cid) (File.json (metaOf chat))).write (Path.messages cid)
      (File.log [] false))).1
  have q2 := (paginate_frame w chat cid deadline (Path.chatJson cid) hne hnm fuel 0 none []
    ((st2.write (Path.chatJson cid) (File.json (metaOf chat))).write (Path.messages cid)
      (File.log [] false))).1
  rw [write_fs_other _ _ _ _ hne, write_fs_same] at q1 q2
  rw [(exportChat_of_id w chat deadline fuel st1 cid hg hc).2,
    (exportChat_of_id w chat deadline fuel st2 cid hg hc).2, p1]
  split
  · simp only [State.endStream, write_fs_same, write_fs_other _ _ _ _ hne]
    rw [q1, q2, p2]
    exact ⟨rfl, rfl⟩
  · rw [q1, q2, p2]
    exact ⟨rfl, rfl⟩

/-! ### Settling all exports -/

theorem foreign_chatJson (cid cid1 : JsString) (h : cid ≠ cid1) :
    Foreign cid1 (Path.chatJson cid) := by
  refine ⟨?_, ?_, ?_⟩
  · intro e
    cases e
    exact h rfl
  · intro e
    cases e
  · intro f e
    cases e

theorem foreign_messages (cid cid1 : JsString) (h : cid ≠ cid1) :
    Foreign cid1 (Path.messages cid) := by
  refine ⟨?_, ?_, ?_⟩
  · intro e
    cases e
  · intro e
    cases e
    exact h rfl
  · intro f e
    cases e

theorem settleAll_status (w : World) (deadline : Option Nat) (fuel : Nat) (st0 : State)
    (cs : List Chat) (h : ∀ c ∈ cs, (exportChat w c deadline fuel st0).1 ≠ .pending) :
    ∀ st : State, (settleAll w deadline fuel cs st).1 = .done := by
  induction cs with
  | nil => intro st; rfl
  | cons c cs ih =>
    intro st
    simp only [settleAll]
    have hc := h c (List.mem_cons_self _ _)
    rw [exportChat_status_indep w c deadline fuel st0
      { st with dispatched := st.dispatched ++ [c] }] at hc
    rw [if_neg hc]
    exact ih (fun c' hc' => h c' (List.mem_cons_of_mem _ hc')) _

/-- After all exports have run, the `chat.json` and `messages.jsonl` of each chat
are those of its own export, when the chats have different ids. -/
theorem settleAll_own (w : World) (deadline : Option Nat) (fuel : Nat) (cs : List Chat) :
    ∀ st : State, (∀ c ∈ cs, c.isGroup = false) → (cs.filterMap chatId).Nodup →
    ∀ c ∈ cs, ∀ cid, chatId c = some cid →
    (settleAll w deadline fuel cs st).2.fs (Path.chatJson cid) =
      (exportChat w c deadline fuel st).2.fs (Path.chatJson cid) ∧
    (settleAll w deadline fuel cs st).2.fs (Path.messages cid) =
      (exportChat w c deadline fuel st).2.fs (Path.messages cid) := by
  induction cs with
  | nil => intro st _ _ c hc; cases hc
  | cons c0 rest ih =>
    intro st hg hnd c hc cid hcid
    simp only [settleAll]
    rcases List.mem_cons.mp hc with rfl | hrest
    · have hnd' : cid ∉ rest.filterMap chatId ∧ (rest.filterMap chatId).Nodup := by
        simpa [List.filterMap_cons, hcid] using hnd
      have hforeign : ∀ c' ∈ rest, ∀ cid', chatId c' = some cid' → cid ≠ cid' := by
        intro c' hc' cid' hcid' e
        apply hnd'.1
        rw [e]
        exact List.mem_filterMap.mpr ⟨c', hc', hcid'⟩
      obtain ⟨i1, i2⟩ := exportChat_indep w c deadline fuel
        { st with dispatched := st.dispatched ++ [c] } st cid (hg c hc) hcid
      rw [settleAll_frame w deadline fuel rest _ (Path.chatJson cid)
          (fun c' hc' cid' hcid' => foreign_chatJson cid cid' (hforeign c' hc' cid' hcid')),
        settleAll_frame w deadline fuel rest _ (Path.messages cid)
          (fun c' hc' cid' hcid' => foreign_messages cid cid' (hforeign c' hc' cid' hcid'))]
      exact ⟨i1, i2⟩
    · have hnd' : (rest.filterMap chatId).Nodup := by
        cases h0 : chatId c0 with
        | none => simpa [List.filterMap_cons, h0] using hnd
        | some cid0 =>
          have : cid0 ∉ rest.filterMap chatId ∧ (rest.filterMap chatId).Nodup := by
            simpa [List.filterMap_cons, h0] using hnd
          exact this.2
      obtain ⟨j1, j2⟩ := ih
        (exportChat w c0 deadline fuel { st with dispatched := st.dispatched ++ [c0] }).2
        (fun c' hc' => hg c' (List.mem_cons_of_mem _ hc')) hnd' c hrest cid hcid
      obtain ⟨i1, i2⟩ := exportChat_indep w c deadline fuel
        (exportChat w c0 deadline fuel { st with dispatched := st.dispatched ++ [c0] }).2
        st cid (hg c hc) hcid
      exact ⟨j1.trans i1, j2.trans i2⟩

/-- C6: when the wait for the chat list has ended and `getChats` has returned chats
whose eligible ones have an `id` object and different ids, and each export settles
(returns or throws) within the fuel, then `exportAll` completes without error,
whichever exports threw, and the `chat.json` and `messages.jsonl` of every eligible
chat are exactly those that exporting this chat alone writes. -/
theorem exportAll_isolation (w : World) (deadline : Option Nat) (fuel : Nat) (st : State)
    (chats : List Chat) (hsync : (waitForChatSync w 300000 fuel).ended = true)
    (hget : w.getChats = .resolves chats)
    (hid : ∀ c ∈ directChats chats, c.id ≠ none)
    (hnodup : ((directChats chats).filterMap chatId).Nodup)
    (hsettle : ∀ c ∈ directChats chats, (exportChat w c deadline fuel st).1 ≠ .pending) :
    (exportAll w deadline fuel st).1 = .done ∧
    ∀ c ∈ directChats chats, ∀ cid, chatId c = some cid →
      (exportAll w deadline fuel st).2.fs (Path.chatJson cid) =
        (exportChat w c deadline fuel st).2.fs (Path.chatJson cid) ∧
      (exportAll w deadline fuel st).2.fs (Path.messages cid) =
        (exportChat w c deadline fuel st).2.fs (Path.messages cid) := by
  have hany : (directChats chats).any (fun c => c.id.isNone) = false := by
    rw [Bool.eq_false_iff]
    intro h
    obtain ⟨c, hc, hn⟩ := List.any_eq_true.mp h
    exact hid c hc (Option.isNone_iff_eq_none.mp hn)
  have hg : ∀ c ∈ directChats chats, c.isGroup = false := by
    intro c hc
    exact ((isDirectChat_iff c).mp (List.of_mem_filter hc)).1
  rw [exportAll_eq w deadline fuel st chats hsync hget]
  unfold exportAllChats
  simp only [hany, Bool.false_eq_true, if_false]
  refine ⟨settleAll_status w deadline fuel st _ hsettle _, ?_⟩
  intro c hc cid hcid
  obtain ⟨j1, j2⟩ := settleAll_own w deadline fuel (directChats chats)
    (st.write Path.index (File.index ((directChats chats).map metaOf))) hg hnodup c hc cid hcid
  obtain ⟨i1, i2⟩ := exportChat_indep w c deadline fuel
    (st.write Path.index (File.index ((directChats chats).map metaOf))) st cid (hg c hc) hcid
  exact ⟨j1.trans i1, j2.trans i2⟩

/-- The export of `1@c.us` throws at its first fetch; `exportAll` completes and
`2@c.us` has its five lines and an ended stream, as when exported alone. -/
theorem exportAll_isolation_witness :
    (exportChat oneFailingWorld (chatWithId "1@c.us" false) none 5 State.init).1 = .threw ∧
    (exportAll oneFailingWorld none 5 State.init).1 = .done ∧
    (exportAll oneFailingWorld none 5 State.init).2.fs (Path.messages (lit "2@c.us")) =
      (exportChat oneFailingWorld (chatWithId "2@c.us" false) none 5 State.init).2.fs
        (Path.messages (lit "2@c.us")) ∧
    idsOf ((exportAll oneFailingWorld none 5 State.init).2.fs (Path.messages (lit "2@c.us"))) =
      [lit "5", lit "4", lit "3", lit "2", lit "1"] ∧
    isEnded ((exportAll oneFailingWorld none 5 State.init).2.fs
      (Path.messages (lit "2@c.us"))) = true := by
  obtain ⟨h1, h2⟩ := exportAll_isolation oneFailingWorld none 5 State.init
    [chatWithId "1@c.us" false, chatWithId "2@c.us" false]
    (by decide) rfl (by decide) (by decide) (by decide)
  have h3 := (h2 (chatWithId "2@c.us" false) (by decide) (lit "2@c.us") (by decide)).2
  refine ⟨by decide, h1, h3, ?_, ?_⟩
  · rw [h3]
    decide
  · rw [h3]
    decide

/-! ### The stability rule of waitForChatSync -/

theorem runLen_succ_ge (counts : Nat → Nat) (k j : Nat) :
    j + 1 ≤ runLen counts (k + 1) ↔ Unchanged counts k ∧ j ≤ runLen counts k := by
  have hu : Unchanged counts k ↔ counts k = prevOf counts k := Iff.rfl
  rw [hu]
  by_cases h : counts k = prevOf counts k
  · simp [runLen, h]
  · simp [runLen, h]

theorem runLen_ge_three (counts : Nat → Nat) (n : Nat) :
    3 ≤ runLen counts (n + 1) ↔ CompletesThree (Unchanged counts) n := by
  unfold CompletesThree
  rw [runLen_succ_ge counts n 2]
  match n with
  | 0 => simp [runLen]
  | 1 =>
    rw [runLen_succ_ge counts 0 1]
    simp [runLen]
  | m + 2 =>
    rw [runLen_succ_ge counts (m + 1) 1, runLen_succ_ge counts m 0]
    simp only [Nat.add_sub_cancel, Nat.le_add_left, true_and, Nat.zero_le, and_true]
    have e : m + 2 - 1 = m + 1 := by omega
    rw [e]
    tauto

theorem pollLoop_step (w : World) (maxMs : Nat) (counts : Nat → Nat) (f k : Nat)
    (hin : InTime w maxMs k) (hc : w.chatsCount k = .resolves (counts k)) :
    pollLoop w maxMs (f + 1) k (pollTime w k) (prevOf counts k) (runLen counts k) =
      if 3 ≤ runLen counts (k + 1) then (.stable (k + 1), [pollTime w k])
      else
        ((pollLoop w maxMs f (k + 1) (pollTime w (k + 1)) (prevOf counts (k + 1))
            (runLen counts (k + 1))).1,
          pollTime w k ::
            (pollLoop w maxMs f (k + 1) (pollTime w (k + 1)) (prevOf counts (k + 1))
              (runLen counts (k + 1))).2) := by
  have hin' : (pollTime w k : Int) - (w.syncStart : Int) < (maxMs : Int) := hin
  rw [pollLoop]
  simp only [hin', if_true, hc, ge_iff_le]
  have hp : prevOf counts (k + 1) = counts k := by simp [prevOf]
  rw [hp]
  rfl

theorem pollLoop_stable (w : World) (maxMs : Nat) (counts : Nat → Nat) (n : Nat)
    (hcounts : ∀ k ≤ n, w.chatsCount k = .resolves (counts k))
    (hin : ∀ k ≤ n, InTime w maxMs k)
    (hfirst : ∀ j < n, ¬ CompletesThree (Unchanged counts) j)
    (hn : CompletesThree (Unchanged counts) n) :
    ∀ d k fuel, k + d = n → d < fuel →
    pollLoop w maxMs fuel k (pollTime w k) (prevOf counts k) (runLen counts k) =
      (.stable (n + 1), (List.range' k (d + 1)).map (pollTime w)) := by
  intro d
  induction d with
  | zero =>
    intro k fuel hk hfuel
    obtain ⟨f, rfl⟩ : ∃ f, fuel = f + 1 := ⟨fuel - 1, by omega⟩
    have hkn : k = n := by omega
    subst hkn
    rw [pollLoop_step w maxMs counts f k (hin k (Nat.le_refl _)) (hcounts k (Nat.le_refl _)),
      if_pos ((runLen_ge_three counts k).mpr hn)]
    simp
  | succ d ih =>
    intro k fuel hk hfuel
    obtain ⟨f, rfl⟩ : ∃ f, fuel = f + 1 := ⟨fuel - 1, by omega⟩
    have hlt : k < n := by omega
    rw [pollLoop_step w maxMs counts f k (hin k (Nat.le_of_lt hlt))
        (hcounts k (Nat.le_of_lt hlt)),
      if_neg (fun h => hfirst k hlt ((runLen_ge_three counts k).mp h)),
      ih (k + 1) f (by omega) (by omega), List.range'_succ k (d + 1)]
    simp

theorem pollLoop_timedOut (w : World) (maxMs : Nat) (counts : Nat → Nat) (n : Nat)
    (hcounts : ∀ k < n, w.chatsCount k = .resolves (counts k))
    (hin : ∀ k < n, InTime w maxMs k) (hout : ¬ InTime w maxMs n)
    (hfirst : ∀ j < n, ¬ CompletesThree (Unchanged counts) j) :
    ∀ d k fuel, k + d = n → d < fuel →
    pollLoop w maxMs fuel k (pollTime w k) (prevOf counts k) (runLen counts k) =
      (.timedOut n, (List.range' k d).map (pollTime w)) := by
  intro d
  induction d with
  | zero =>
    intro k fuel hk hfuel
    obtain ⟨f, rfl⟩ : ∃ f, fuel = f + 1 := ⟨fuel - 1, by omega⟩
    have hkn : k = n := by omega
    subst hkn
    have hout' : ¬ ((pollTime w k : Int) - (w.syncStart : Int) < (maxMs : Int)) := hout
    rw [pollLoop]
    simp only [hout', if_false]
    simp
  | succ d ih =>
    intro k fuel hk hfuel
    obtain ⟨f, rfl⟩ : ∃ f, fuel = f + 1 := ⟨fuel - 1, by omega⟩
    have hlt : k < n := by omega
    rw [pollLoop_step w maxMs counts f k (hin k hlt) (hcounts k hlt),
      if_neg (fun h => hfirst k hlt ((runLen_ge_three counts k).mp h)),
      ih (k + 1) f (by omega) (by omega), List.range'_succ k d]
    simp

/-- Whatever the client answers, two polls in a row are at least 1000 ms apart, and
no poll is made before the loop test that admits it. -/
theorem pollLoop_spaced (w : World) (maxMs : Nat) :
    ∀ (fuel k now prev stableCount : Nat),
    List.Chain' (fun a b => a + 1000 ≤ b) (pollLoop w maxMs fuel k now prev stableCount).2 ∧
    ∀ t ∈ (pollLoop w maxMs fuel k now prev stableCount).2, now ≤ t := by
  intro fuel
  induction fuel with
  | zero =>
    intro k now prev stableCount
    simp [pollLoop]
  | succ f ih =>
    intro k now prev stableCount
    rw [pollLoop]
    split
    · split
      · simp
      · rename_i c _
        dsimp only
        generalize (if c = prev then stableCount + 1 else 0) = stableCount1
        split
        · simp
        · obtain ⟨h1, h2⟩ := ih (k + 1) (now + w.evaluateMs k + 1000 + w.timerLag k) c
            stableCount1
          refine ⟨List.Chain'.cons' h1 ?_, ?_⟩
          · intro y hy
            have := h2 y (List.mem_of_mem_head? hy)
            omega
          · intro t ht
            rcases List.mem_cons.mp ht with rfl | ht'
            · exact Nat.le_refl _
            · have := h2 t ht'
              omega
    · simp

theorem pollTime_ge (w : World) (k : Nat) : w.syncStart + 1000 * k ≤ pollTime w k := by
  induction k with
  | zero => simp [pollTime]
  | succ k ih =>
    simp only [pollTime]
    omega

theorem pollTime_exact (w : World) (h : ∀ k, w.evaluateMs k = 0 ∧ w.timerLag k = 0) (k : Nat) :
    pollTime w k = w.syncStart + 1000 * k := by
  induction k with
  | zero => simp [pollTime]
  | succ k ih =>
    simp only [pollTime, (h k).1, (h k).2, ih]
    omega

/-- The loop test fails at some test, at the latest when `maxMs` is used up by the
sleeps alone, and there is a first test that fails. -/
theorem first_test_failing (w : World) (maxMs : Nat) :
    ∃ n, n ≤ (maxMs + 999) / 1000 ∧ (∀ k < n, InTime w maxMs k) ∧ ¬ InTime w maxMs n := by
  classical
  have hex : ∃ n, ¬ InTime w maxMs n := by
    refine ⟨(maxMs + 999) / 1000, ?_⟩
    have := pollTime_ge w ((maxMs + 999) / 1000)
    unfold InTime
    omega
  refine ⟨Nat.find hex, ?_, ?_, Nat.find_spec hex⟩
  · apply Nat.find_min' hex
    have := pollTime_ge w ((maxMs + 999) / 1000)
    unfold InTime
    omega
  · intro k hk
    exact not_not.mp (Nat.find_min hex hk)

/-- C9, as the code has it: a poll is unchanged when its count equals the count of
the poll before it, and the first poll when its count is 0, the initial value of
`prev`. If poll `n` (counted from 0) is the first that completes three consecutive
unchanged polls and `maxMs` has elapsed at no loop test up to it, the loop ends
there, after `n + 1` polls, and so at no earlier poll. If no such poll occurs the
loop keeps polling once per second until `maxMs` has elapsed: it ends at the first
loop test at which `maxMs` has elapsed, having polled at every test before, and
there is such a test, after at most `maxMs / 1000` (rounded up) polls. Once per
second: after each poll the loop sleeps 1000 ms, so two polls in a row are at least
1000 ms apart, and exactly 1000 ms when the poll and the timer take no time. Fuel
above `n` is enough. -/
theorem waitForChatSync_stability (w : World) (maxMs : Nat) (counts : Nat → Nat)
    (hcounts : ∀ k, w.chatsCount k = .resolves (counts k)) :
    (∀ n fuel, n < fuel → (∀ j < n, ¬ CompletesThree (Unchanged counts) j) →
      (∀ k ≤ n, InTime w maxMs k) → CompletesThree (Unchanged counts) n →
      waitForChatSync w maxMs fuel = .stable (n + 1) ∧
      pollTimes w maxMs fuel = (List.range (n + 1)).map (pollTime w)) ∧
    (∀ n fuel, n < fuel → (∀ j < n, ¬ CompletesThree (Unchanged counts) j) →
      (∀ k < n, InTime w maxMs k) → ¬ InTime w maxMs n →
      waitForChatSync w maxMs fuel = .timedOut n ∧
      pollTimes w maxMs fuel = (List.range n).map (pollTime w)) ∧
    ((∀ j, (∀ k ≤ j, InTime w maxMs k) → ¬ CompletesThree (Unchanged counts) j) →
      ∃ n, n ≤ (maxMs + 999) / 1000 ∧ (∀ k < n, InTime w maxMs k) ∧ ¬ InTime w maxMs n ∧
        ∀ fuel, n < fuel → waitForChatSync w maxMs fuel = .timedOut n ∧
          pollTimes w maxMs fuel = (List.range n).map (pollTime w)) ∧
    (∀ fuel, List.Chain' (fun a b => a + 1000 ≤ b) (pollTimes w maxMs fuel)) ∧
    (∀ k, pollTime w (k + 1) = pollTime w k + w.evaluateMs k + 1000 + w.timerLag k) ∧
    ((∀ k, w.evaluateMs k = 0 ∧ w.timerLag k = 0) →
      ∀ k, pollTime w k = w.syncStart + 1000 * k) := by
  have hB : ∀ n fuel, n < fuel → (∀ j < n, ¬ CompletesThree (Unchanged counts) j) →
      (∀ k < n, InTime w maxMs k) → ¬ InTime w maxMs n →
      waitForChatSync w maxMs fuel = .timedOut n ∧
      pollTimes w maxMs fuel = (List.range n).map (pollTime w) := by
    intro n fuel hfuel hfirst hin hout
    have h := pollLoop_timedOut w maxMs counts n (fun k _ => hcounts k) hin hout hfirst n 0 fuel
      (by omega) hfuel
    have h0 : pollLoop w maxMs fuel 0 w.syncStart 0 0 =
        (.timedOut n, (List.range' 0 n).map (pollTime w)) := h
    simp only [waitForChatSync, pollTimes, h0, List.range_eq_range']
    exact ⟨trivial, trivial⟩
  refine ⟨?_, hB, ?_, ?_, fun _ => rfl, pollTime_exact w⟩
  · intro n fuel hfuel hfirst hin hn
    have h := pollLoop_stable w maxMs counts n (fun k _ => hcounts k) hin hfirst hn n 0 fuel
      (by omega) hfuel
    have h0 : pollLoop w maxMs fuel 0 w.syncStart 0 0 =
        (.stable (n + 1), (List.range' 0 (n + 1)).map (pollTime w)) := h
    simp only [waitForChatSync, pollTimes, h0, List.range_eq_range']
    exact ⟨trivial, trivial⟩
  · intro hno
    obtain ⟨n, hle, hin, hout⟩ := first_test_failing w maxMs
    refine ⟨n, hle, hin, hout, ?_⟩
    intro fuel hfuel
    exact hB n fuel hfuel
      (fun j hj => hno j (fun k hk => hin k (Nat.lt_of_le_of_lt hk hj))) hin hout
  · intro fuel
    exact (pollLoop_spaced w maxMs fuel 0 w.syncStart 0 0).1

/-- With counts 0, 0, 0 and nothing but the sleep between the polls the loop ends at
the third poll, the polls at 0, 1000 and 2000 ms. With counts 1, 2, 3, ..., polls of
20 ms and a limit of 3000 ms it polls at 0, 1020 and 2040 ms and ends by the time
limit at the fourth test. -/
theorem waitForChatSync_stability_witness :
    (waitForChatSync sampleWorld 300000 5 = .stable 3 ∧
      pollTimes sampleWorld 300000 5 = [0, 1000, 2000]) ∧
    (waitForChatSync growingWorld 3000 5 = .timedOut 3 ∧
      pollTimes growingWorld 3000 5 = [0, 1020, 2040]) := by
  constructor
  · have h := (waitForChatSync_stability sampleWorld 300000 (fun _ => 0) (fun _ => rfl)).1
      2 5 (by decide)
      (by
        intro j hj hc
        have := hc.1
        omega)
      (by
        intro k hk
        have := pollTime_exact sampleWorld (fun _ => ⟨rfl, rfl⟩) k
        have hs : sampleWorld.syncStart = 0 := rfl
        unfold InTime
        omega)
      ⟨by decide, rfl, rfl, rfl⟩
    exact ⟨h.1, h.2.trans (by decide)⟩
  · have h := (waitForChatSync_stability growingWorld 3000 (fun k => k + 1)
      (fun _ => rfl)).2.1 3 5 (by decide)
      (by
        intro j _ hc
        have := hc.2.2.2
        unfold Unchanged at this
        by_cases h0 : j = 0
        · simp [h0] at this
        · simp only [h0, if_false] at this
          omega)
      (by
        intro k hk
        have h0 : pollTime growingWorld 0 = 0 := rfl
        have h1 : pollTime growingWorld 1 = 1020 := rfl
        have h2 : pollTime growingWorld 2 = 2040 := rfl
        have hs : growingWorld.syncStart = 0 := rfl
        unfold InTime
        interval_cases k <;> omega)
      (by
        have h3 : pollTime growingWorld 3 = 3060 := rfl
        have hs : growingWorld.syncStart = 0 := rfl
        unfold InTime
        omega)
    exact ⟨h.1, h.2.trans (by decide)⟩

/-- C9, as stated, fails: with every poll counting 0 chats the loop ends at the
third poll, but the first poll has no poll before it, so the third poll does not
complete three polls whose count equals that of the poll before; the fourth is the
first that does. -/
theorem waitForChatSync_first_poll_counts :
    (∀ k, sampleWorld.chatsCount k = .resolves ((fun _ => 0) k)) ∧
    waitForChatSync sampleWorld 300000 5 = .stable 3 ∧
    ¬ CompletesThree (UnchangedSpec (fun _ => 0)) 2 ∧
    CompletesThree (UnchangedSpec (fun _ => 0)) 3 := by
  refine ⟨fun _ => rfl, by decide, ?_, ?_⟩
  · intro h
    have := h.2.1.1
    omega
  · refine ⟨by decide, ⟨by decide, rfl⟩, ⟨by decide, rfl⟩, ⟨by decide, rfl⟩⟩

/-! ### Shutdown -/

/-- What holds of the process after `n` triggers have fired. -/
theorem step_invariant (p : Proc) (e : Event) (n : Nat)
    (h : p.calls.count Call.logout = p.loggingOut + p.calls.count Call.destroy ∧
      p.calls.count Call.destroy = p.destroying + p.calls.count Call.exit ∧
      p.calls.count Call.exit = (if p.exited then 1 else 0) ∧
      p.queued + p.calls.count Call.logout ≤ n ∧
      (p.exited = false → p.queued + p.calls.count Call.logout = n)) :
    (step p e).calls.count Call.logout =
      (step p e).loggingOut + (step p e).calls.count Call.destroy ∧
    (step p e).calls.count Call.destroy =
      (step p e).destroying + (step p e).calls.count Call.exit ∧
    (step p e).calls.count Call.exit = (if (step p e).exited then 1 else 0) ∧
    (step p e).queued + (step p e).calls.count Call.logout ≤ n + (if e.isFire then 1 else 0) ∧
    ((step p e).exited = false →
      (step p e).queued + (step p e).calls.count Call.logout =
        n + (if e.isFire then 1 else 0)) := by
  obtain ⟨h1, h2, h3, h4, h5⟩ := h
  unfold step
  cases hx : p.exited
  · have h5' := h5 hx
    simp only [hx, if_false, Bool.false_eq_true] at h3 ⊢
    cases e with
    | fire t =>
      simp only [shutdown, Event.isFire, if_true, hx, Bool.false_eq_true, if_false]
      refine ⟨h1, h2, h3, by omega, fun _ => by omega⟩
    | logoutStarts =>
      by_cases hq : 0 < p.queued
      · simp only [hq, if_true, Event.isFire, Bool.false_eq_true, if_false, hx,
          List.count_append, List.count_cons, List.count_nil, Nat.add_zero]
        simp
        omega
      · simp only [hq, if_false, Event.isFire, Bool.false_eq_true, hx, Nat.add_zero]
        exact ⟨h1, h2, h3, h4, fun _ => h5'⟩
    | logoutSettles =>
      by_cases hq : 0 < p.loggingOut
      · simp only [hq, if_true, Event.isFire, Bool.false_eq_true, if_false, hx,
          List.count_append, List.count_cons, List.count_nil, Nat.add_zero]
        simp
        omega
      · simp only [hq, if_false, Event.isFire, Bool.false_eq_true, hx, Nat.add_zero]
        exact ⟨h1, h2, h3, h4, fun _ => h5'⟩
    | destroySettles =>
      by_cases hq : 0 < p.destroying
      · simp only [hq, if_true, Event.isFire, Bool.false_eq_true, if_false,
          List.count_append, List.count_cons, List.count_nil, Nat.add_zero]
        simp
        omega
      · simp only [hq, if_false, Event.isFire, Bool.false_eq_true, hx, Nat.add_zero]
        exact ⟨h1, h2, h3, h4, fun _ => h5'⟩
  · simp only [hx, if_true] at h3 ⊢
    refine ⟨h1, h2, h3, ?_, ?_⟩
    · split <;> omega
    · intro h
      cases h

theorem foldl_step_invariant (es : List Event) :
    ∀ (p : Proc) (n : Nat),
    (p.calls.count Call.logout = p.loggingOut + p.calls.count Call.destroy ∧
      p.calls.count Call.destroy = p.destroying + p.calls.count Call.exit ∧
      p.calls.count Call.exit = (if p.exited then 1 else 0) ∧
      p.queued + p.calls.count Call.logout ≤ n ∧
      (p.exited = false → p.queued + p.calls.count Call.logout = n)) →
    ((es.foldl step p).calls.count Call.logout =
      (es.foldl step p).loggingOut + (es.foldl step p).calls.count Call.destroy ∧
    (es.foldl step p).calls.count Call.destroy =
      (es.foldl step p).destroying + (es.foldl step p).calls.count Call.exit ∧
    (es.foldl step p).calls.count Call.exit = (if (es.foldl step p).exited then 1 else 0) ∧
    (es.foldl step p).queued + (es.foldl step p).calls.count Call.logout ≤
      n + (es.filter Event.isFire).length ∧
    ((es.foldl step p).exited = false →
      (es.foldl step p).queued + (es.foldl step p).calls.count Call.logout =
        n + (es.filter Event.isFire).length)) := by
  induction es with
  | nil => intro p n h; simpa using h
  | cons e es ih =>
    intro p n h
    have hs := step_invariant p e n h
    have hi := ih (step p e) (n + (if e.isFire then 1 else 0)) hs
    simp only [List.foldl_cons]
    have hlen : n + (if e.isFire then 1 else 0) + (es.filter Event.isFire).length =
        n + ((e :: es).filter Event.isFire).length := by
      cases hf : e.isFire
      · simp [List.filter_cons, hf]
      · simp [List.filter_cons, hf]
        omega
    rw [hlen] at hi
    exact hi

/-- C10, as the code has it: `shutdown()` has no guard, every trigger that fires
before the process has exited starts a sequence logout, destroy, terminate of its
own. After any sequence of events `process.exit` has been executed at most once,
`destroy` at most as often as `logout`, and `logout` at most once per trigger fired;
as long as the process has not exited, every trigger fired has a sequence that ran
its `logout` or waits to run it; once the process has exited, every event, a trigger
too, changes nothing. -/
theorem shutdown_per_trigger (es : List Event) :
    (run es).calls.count Call.exit ≤ 1 ∧
    (run es).calls.count Call.destroy ≤ (run es).calls.count Call.logout ∧
    (run es).calls.count Call.logout ≤ (es.filter Event.isFire).length ∧
    ((run es).exited = false →
      (run es).queued + (run es).calls.count Call.logout =
        (es.filter Event.isFire).length) ∧
    ((run es).exited = true → ∀ e, step (run es) e = run es) := by
  obtain ⟨h1, h2, h3, h4, h5⟩ := foldl_step_invariant es ⟨0, 0, 0, [], false⟩ 0
    (by simp)
  simp only [Nat.zero_add] at h4 h5
  refine ⟨?_, ?_, ?_, h5, ?_⟩
  · show (List.foldl step _ es).calls.count Call.exit ≤ 1
    rw [h3]
    split <;> omega
  · show (List.foldl step _ es).calls.count Call.destroy ≤
      (List.foldl step _ es).calls.count Call.logout
    omega
  · show (List.foldl step _ es).calls.count Call.logout ≤ _
    omega
  · intro hx e
    simp [step, hx]

/-- Two triggers before the exit, each followed by the first callback of its chain:
`shutdown` has run `logout` twice, and destroys and exits once. -/
theorem shutdown_per_trigger_witness :
    (run [Event.fire Trigger.extractTimeout, Event.logoutStarts,
      Event.fire Trigger.exportCompleted, Event.logoutStarts, Event.logoutSettles,
      Event.destroySettles, Event.fire Trigger.disconnected]).calls.count Call.exit ≤ 1 ∧
    (run [Event.fire Trigger.extractTimeout, Event.logoutStarts,
      Event.fire Trigger.exportCompleted, Event.logoutStarts, Event.logoutSettles,
      Event.destroySettles, Event.fire Trigger.disconnected]).calls =
      [Call.logout, Call.logout, Call.destroy, Call.exit] :=
  ⟨(shutdown_per_trigger _).1, by decide⟩

/-- C10, as stated, fails: the extraction timeout fires and its chain calls `logout`,
then the export completes and calls `shutdown()` again, and that chain calls `logout`
too. The second trigger was no no-op and `logout` has been executed twice. -/
theorem shutdown_runs_twice :
    (run [Event.fire Trigger.extractTimeout, Event.logoutStarts,
      Event.fire Trigger.exportCompleted, Event.logoutStarts]).calls =
      [Call.logout, Call.logout] ∧
    step (run [Event.fire Trigger.extractTimeout, Event.logoutStarts])
      (Event.fire Trigger.exportCompleted) ≠
      run [Event.fire Trigger.extractTimeout, Event.logoutStarts] := by
  refine ⟨by decide, by decide⟩

end Whatsups
